import Mathlib

/-!
Shallow embedding of `src/OptimizedVacuum.py` (vacuum-agent grid simulation)
and proofs about it.  Python machine integers are modelled by `Int`/`Nat`,
Python floats (only used as probabilities compared against draws of the
random generator) by `ℚ`, and fallible operations (Python exceptions such
as `IndexError`) by `Option`.  The seeded generator `random.Random(seed)`
is modelled by its stream of draws `rnd : Nat → ℚ`: the Python generator
is a deterministic function of the seed, and the draws are consumed in
row-major order, one per cell, so cell `(r, c)` consumes draw number
`r * cols + c`.
-/

namespace VacuumAgent

/-- Positions are pairs (row, col) of Python ints, as in the source. -/
abbrev Pos := Int × Int

/-- Python list read `l[i]`: a negative index counts from the end of the
list, and an index out of range raises `IndexError` (modelled by `none`). -/
def pyGet {α : Type} (l : List α) (i : Int) : Option α :=
  let j : Int := if i < 0 then i + l.length else i
  if j < 0 then none else l.get? j.toNat

/-- Python list write `l[i] = a`, with the same index semantics as `pyGet`. -/
def pySet {α : Type} (l : List α) (i : Int) (a : α) : Option (List α) :=
  let j : Int := if i < 0 then i + l.length else i
  if j < 0 then none
  else if j < (l.length : Int) then some (l.set j.toNat a) else none

/-- The `Room` dataclass: dimensions plus the dirt grid built in
`__post_init__` (`True` = dirty).  The `dirt_prob` and `seed` fields are
only read during construction, so they are not stored here. -/
structure Room where
  rows : Int
  cols : Int
  grid : List (List Bool)
deriving DecidableEq, Repr

/-- Room construction (`__post_init__`): for each cell in row-major order
one uniform draw is taken and the cell is dirty iff the draw is below
`dirt_prob`.  Python's `range(n)` is empty for `n ≤ 0`, which is
`Int.toNat`. -/
def mkRoom (rows cols : Int) (dirt_prob : ℚ) (rnd : Nat → ℚ) : Room :=
  ⟨rows, cols,
    (List.range rows.toNat).map (fun r =>
      (List.range cols.toNat).map (fun c =>
        decide (rnd (r * cols.toNat + c) < dirt_prob)))⟩

/-- `Room.is_dirty`: `self.grid[r][c]` with Python indexing. -/
def Room.is_dirty (room : Room) (p : Pos) : Option Bool :=
  (pyGet room.grid p.1).bind (fun row => pyGet row p.2)

/-- `Room.clean`: `self.grid[r][c] = False` with Python indexing. -/
def Room.clean (room : Room) (p : Pos) : Option Room :=
  (pyGet room.grid p.1).bind (fun row =>
    (pySet row p.2 false).bind (fun row2 =>
      (pySet room.grid p.1 row2).map (fun g => ⟨room.rows, room.cols, g⟩)))

/-- Total read of a grid cell, defaulting to `false` out of range.  On the
index ranges `dirt_count` iterates over this agrees with Python's
`self.grid[r][c]` whenever the grid has shape `rows × cols`, which holds
for every room the program constructs. -/
def cellD (g : List (List Bool)) (r c : Nat) : Bool :=
  (((g.get? r).getD []).get? c).getD false

/-- `Room.dirt_count`: the number of dirty cells, recomputed on demand by
iterating `r in range(rows)`, `c in range(cols)`. -/
def Room.dirt_count (room : Room) : Nat :=
  ((List.range room.rows.toNat).map (fun r =>
    (List.range room.cols.toNat).countP (fun c => cellD room.grid r c))).sum

/-- The `Percept` dataclass. -/
structure Percept where
  pos : Pos
  dirty_here : Bool
  wall_up : Bool
  wall_down : Bool
  wall_left : Bool
  wall_right : Bool
deriving DecidableEq, Repr

/-- `get_percept`: local dirt flag plus the four boundary sensors. -/
def get_percept (room : Room) (pos : Pos) : Option Percept :=
  (room.is_dirty pos).map (fun d =>
    ⟨pos, d, decide (pos.1 = 0), decide (pos.1 = room.rows - 1),
      decide (pos.2 = 0), decide (pos.2 = room.cols - 1)⟩)

/-- `OptimizedVacuumAgent.choose_action`.  The agent's one mutable field
`self.direction` (`1` = moving right, `-1` = moving left) is passed and
returned explicitly; the returned pair is (action, new direction).  The
Python `else` branch covers every direction value other than `1`. -/
def choose_action (direction : Int) (percept : Percept) : String × Int :=
  if percept.dirty_here then ("SUCK", direction)
  else if direction = 1 then
    if !percept.wall_right then ("RIGHT", direction)
    else if !percept.wall_down then ("DOWN", -1)
    else ("NOOP", direction)
  else
    if !percept.wall_left then ("LEFT", direction)
    else if !percept.wall_down then ("DOWN", 1)
    else ("NOOP", direction)

/-- The `step` function: applies an action to the room and position.  The
room is mutated in place in Python, so the (possibly cleaned) room is
returned alongside the new position; an unrecognised token falls through
to `return pos`. -/
def step (room : Room) (pos : Pos) (action : String) : Option (Room × Pos) :=
  if action = "SUCK" then (room.clean pos).map (fun rm => (rm, pos))
  else if action = "UP" then
    some (room, if pos.1 > 0 then (pos.1 - 1, pos.2) else pos)
  else if action = "DOWN" then
    some (room, if pos.1 < room.rows - 1 then (pos.1 + 1, pos.2) else pos)
  else if action = "LEFT" then
    some (room, if pos.2 > 0 then (pos.1, pos.2 - 1) else pos)
  else if action = "RIGHT" then
    some (room, if pos.2 < room.cols - 1 then (pos.1, pos.2 + 1) else pos)
  else some (room, pos)

/-- Outcome of the episode loop, instrumented for the stated properties:
`steps` is the number of executed iterations, `trace` records the agent's
position at the start of each executed iteration, and `noopDirty` records
whether some iteration chose action `NOOP` at a moment where
`dirt_count ≠ 0`. -/
structure LoopOut where
  room : Room
  pos : Pos
  steps : Nat
  trace : List Pos
  noopDirty : Bool
deriving DecidableEq, Repr

/-- The `while steps_taken < max_steps and room.dirt_count() > 0` loop of
`run_episode`, with the remaining step budget as fuel: one unit of fuel is
one permitted loop iteration, so fuel `max_steps.toNat` is exactly the
Python guard `steps_taken < max_steps` starting from `steps_taken = 0`. -/
def runLoop : Nat → Room → Int → Pos → Option LoopOut
  | 0, room, _, pos => some ⟨room, pos, 0, [], false⟩
  | fuel + 1, room, direction, pos =>
    if room.dirt_count > 0 then
      match get_percept room pos with
      | none => none
      | some percept =>
        match choose_action direction percept with
        | (action, direction2) =>
          match step room pos action with
          | none => none
          | some rp =>
            match runLoop fuel rp.1 direction2 rp.2 with
            | none => none
            | some out =>
              some ⟨out.room, out.pos, out.steps + 1, pos :: out.trace,
                ((action == "NOOP") && (room.dirt_count != 0)) || out.noopDirty⟩
    else some ⟨room, pos, 0, [], false⟩

/-- The dict returned by `run_episode`. -/
structure EpisodeResult where
  rows : Int
  cols : Int
  initial_dirt : Nat
  steps_taken : Nat
  dirt_remaining : Nat
  cleaned_all : Bool
deriving DecidableEq, Repr

/-- `run_episode`: build the room from the seed's draw stream, run the loop
(the agent's direction starts at `1`, moving right), and collect the
result record.  A `none` result models an uncaught Python exception. -/
def run_episode (rows cols : Int) (dirt_prob : ℚ) (rnd : Nat → ℚ)
    (max_steps : Int) (start : Pos) : Option EpisodeResult :=
  let room := mkRoom rows cols dirt_prob rnd
  let initial_dirt := room.dirt_count
  (runLoop max_steps.toNat room 1 start).map (fun out =>
    ⟨rows, cols, initial_dirt, out.steps, out.room.dirt_count,
      decide (out.room.dirt_count = 0)⟩)

/-- The position trace of an episode: the agent's position at the start of
each executed loop iteration, in order. -/
def episodeTrace (rows cols : Int) (dirt_prob : ℚ) (rnd : Nat → ℚ)
    (max_steps : Int) (start : Pos) : Option (List Pos) :=
  (runLoop max_steps.toNat (mkRoom rows cols dirt_prob rnd) 1 start).map
    (fun out => out.trace)

/-- Whether, during an episode, the policy ever returned `NOOP` at a moment
where the environment's `dirt_count()` was nonzero. -/
def episodeNoopDirty (rows cols : Int) (dirt_prob : ℚ) (rnd : Nat → ℚ)
    (max_steps : Int) (start : Pos) : Option Bool :=
  (runLoop max_steps.toNat (mkRoom rows cols dirt_prob rnd) 1 start).map
    (fun out => out.noopDirty)

/-- A room is well-formed when its grid really has shape `rows × cols`;
`mkRoom` always produces a well-formed room. -/
def Room.wf (room : Room) : Prop :=
  room.grid.length = room.rows.toNat ∧
    ∀ row ∈ room.grid, row.length = room.cols.toNat

/-- A position is in bounds for a room. -/
def inBounds (room : Room) (p : Pos) : Prop :=
  0 ≤ p.1 ∧ p.1 < room.rows ∧ 0 ≤ p.2 ∧ p.2 < room.cols

instance (room : Room) : Decidable room.wf := by
  unfold Room.wf; infer_instance

instance (room : Room) (p : Pos) : Decidable (inBounds room p) := by
  unfold inBounds; infer_instance

/-- Modelled from the spec (§4.2): the agent's state, the current sweep
direction.  Used only to compare the code's policy against the spec's
machine. -/
inductive SweepDir : Type
| sweepRight : SweepDir
| sweepLeft : SweepDir
deriving DecidableEq, Repr

/-- The code's encoding of a spec state: `1` is moving right, `-1` moving
left. -/
def dirOf : SweepDir → Int
  | SweepDir.sweepRight => 1
  | SweepDir.sweepLeft => -1

/-- Modelled from the spec (§4.2), word for word: the two-state decision
rule, returning the action together with the successor state. -/
def specPolicy : SweepDir → Percept → String × SweepDir
  | SweepDir.sweepRight, p =>
    if p.dirty_here then ("SUCK", SweepDir.sweepRight)
    else if !p.wall_right then ("RIGHT", SweepDir.sweepRight)
    else if !p.wall_down then ("DOWN", SweepDir.sweepLeft)
    else ("NOOP", SweepDir.sweepRight)
  | SweepDir.sweepLeft, p =>
    if p.dirty_here then ("SUCK", SweepDir.sweepLeft)
    else if !p.wall_left then ("LEFT", SweepDir.sweepLeft)
    else if !p.wall_down then ("DOWN", SweepDir.sweepRight)
    else ("NOOP", SweepDir.sweepLeft)

/-- Collapse consecutive duplicates of a position trace: SUCK iterations do
not move the agent, so the visit order of distinct cells is the trace with
consecutive repeats merged. -/
def dedupConsec : List Pos → List Pos
  | [] => []
  | [a] => [a]
  | a :: b :: rest =>
    if a = b then dedupConsec (b :: rest) else a :: dedupConsec (b :: rest)

/-- Modelled from the spec (§8, traversal coverage): the strict row-major
boustrophedon order on an `R × C` grid — even rows left-to-right, odd rows
right-to-left. -/
def boustroSpec (R C : Nat) : List Pos :=
  (List.range R).flatMap (fun r =>
    if r % 2 = 0 then (List.range C).map (fun c : Nat => ((r : Int), (c : Int)))
    else ((List.range C).map (fun c : Nat => ((r : Int), (c : Int)))).reverse)

/-- Coordinates of a grid cell as a position value. -/
def toPos (rc : Nat × Nat) : Pos := ((rc.1 : Int), (rc.2 : Int))

/-- The rest of the current row sweep: from column `c` rightwards to
`C - 1` when `d` is true, leftwards to `0` when `d` is false. -/
def sweepSeg (C r c : Nat) (d : Bool) : List (Nat × Nat) :=
  if d then (List.range' c (C - c)).map (fun j => (r, j))
  else ((List.range (c + 1)).map (fun j => (r, j))).reverse

/-- Full alternating sweeps of `n` consecutive rows starting at row `r`
with horizontal direction `d`. -/
def sweepRows (C : Nat) : Nat → Nat → Bool → List (Nat × Nat)
  | 0, _, _ => []
  | n + 1, r, d => sweepSeg C r (if d then 0 else C - 1) d ++ sweepRows C n (r + 1) (!d)

/-- Cells the zig-zag sweep still has to visit from position `(r, c)` with
current horizontal direction `d`, in visiting order. -/
def sweepFrom (R C r c : Nat) (d : Bool) : List (Nat × Nat) :=
  sweepSeg C r c d ++ sweepRows C (R - r - 1) (r + 1) (!d)

/-- Loop invariant for a run started at the origin: every cell the sweep
has already passed — rows above `r`, and the part of row `r` behind the
current column for the current direction — is clean. -/
def cleanBefore (g : List (List Bool)) (R C : Nat) (dir : Int) (r c : Nat) : Prop :=
  ∀ i j, i < R → j < C →
    (i < r ∨ (i = r ∧ (if dir = 1 then j < c else c < j))) →
    cellD g i j = false

lemma pyGet_eq {α : Type} (l : List α) (i : Int) :
    pyGet l i =
      if i < 0 then
        (if i + (l.length : Int) < 0 then none else l.get? (i + l.length).toNat)
      else l.get? i.toNat := by
  unfold pyGet
  by_cases hi : i < 0 <;> simp [hi]

lemma pySet_eq {α : Type} (l : List α) (i : Int) (a : α) :
    pySet l i a =
      if i < 0 then
        (if i + (l.length : Int) < 0 then none
         else if i + (l.length : Int) < (l.length : Int) then some (l.set (i + l.length).toNat a) else none)
      else if i < (l.length : Int) then some (l.set i.toNat a) else none := by
  unfold pySet
  by_cases hi : i < 0 <;> simp [hi]

lemma pyGet_nat {α : Type} (l : List α) (n : Nat) : pyGet l (n : Int) = l.get? n := by
  rw [pyGet_eq]
  simp

lemma pySet_nat {α : Type} (l : List α) (n : Nat) (a : α) :
    pySet l (n : Int) a = if n < l.length then some (l.set n a) else none := by
  rw [pySet_eq]
  rw [if_neg (by omega : ¬ (n : Int) < 0)]
  by_cases h : n < l.length
  · rw [if_pos (by exact_mod_cast h), if_pos h]
    simp
  · rw [if_neg (by exact_mod_cast h), if_neg h]

lemma pyGet_none {α : Type} (l : List α) (i : Int)
    (h : (l.length : Int) ≤ i ∨ i < -(l.length : Int)) : pyGet l i = none := by
  rw [pyGet_eq]
  by_cases hi : i < 0
  · rw [if_pos hi, if_pos (by omega)]
  · rw [if_neg hi]
    apply List.get?_eq_none.mpr
    omega

lemma pySet_none {α : Type} (l : List α) (i : Int) (a : α)
    (h : (l.length : Int) ≤ i ∨ i < -(l.length : Int)) : pySet l i a = none := by
  rw [pySet_eq]
  by_cases hi : i < 0
  · rw [if_pos hi, if_pos (by omega)]
  · rw [if_neg hi, if_neg (by omega)]

lemma pyGet_some_mem {α : Type} (l : List α) (i : Int)
    (h1 : i < (l.length : Int)) (h2 : -(l.length : Int) ≤ i) :
    ∃ a, pyGet l i = some a ∧ a ∈ l := by
  rw [pyGet_eq]
  by_cases hi : i < 0
  · rw [if_pos hi, if_neg (by omega)]
    have hlt : (i + l.length).toNat < l.length := by omega
    exact ⟨l.get ⟨_, hlt⟩, List.get?_eq_get hlt, List.get_mem _ _ _⟩
  · rw [if_neg hi]
    have hlt : i.toNat < l.length := by omega
    exact ⟨l.get ⟨_, hlt⟩, List.get?_eq_get hlt, List.get_mem _ _ _⟩

lemma dirt_count_zero_of_degenerate (room : Room)
    (h : room.rows.toNat = 0 ∨ room.cols.toNat = 0) : room.dirt_count = 0 := by
  unfold Room.dirt_count
  rcases h with h | h
  · simp [h]
  · apply List.sum_eq_zero
    intro x hx
    simp only [List.mem_map] at hx
    obtain ⟨r, _, rfl⟩ := hx
    simp [h]

lemma runLoop_dirt_zero (fuel : Nat) (room : Room) (d : Int) (pos : Pos)
    (h : room.dirt_count = 0) :
    runLoop fuel room d pos = some ⟨room, pos, 0, [], false⟩ := by
  cases fuel <;> simp [runLoop, h]

/-- C6: the code's `choose_action`, acting on the direction field
(`1` right, `-1` left), is exactly the two-state machine of §4.2 of the
spec: same action and same state transition for every percept, and the
initial direction `1` is the spec's initial state Right. -/
theorem choose_action_refines_spec :
    (∀ (s : SweepDir) (p : Percept),
      choose_action (dirOf s) p = ((specPolicy s p).1, dirOf (specPolicy s p).2)) ∧
    dirOf SweepDir.sweepRight = 1 := by
  refine ⟨fun s p => ?_, rfl⟩
  cases s <;> rcases p with ⟨pos, dh, wu, wd, wl, wr⟩ <;>
    cases dh <;> cases wd <;> cases wl <;> cases wr <;> rfl

/-- C9: `run_episode` is deterministic — two runs with identical
parameters (the seed enters only through the draw stream `rnd`, which the
Python generator determines from the seed) produce identical episode
records. -/
theorem run_episode_deterministic (rows cols : Int) (prob : ℚ)
    (rnd rnd' : Nat → ℚ) (ms : Int) (st : Pos) (h : rnd = rnd') :
    run_episode rows cols prob rnd ms st = run_episode rows cols prob rnd' ms st := by
  subst h
  rfl

/-- Witness for C9 at a concrete parameter tuple. -/
theorem run_episode_deterministic_witness :
    run_episode 2 2 0 (fun _ => 0) 5 (0, 0) =
      run_episode 2 2 0 (fun _ => 0) 5 (0, 0) :=
  run_episode_deterministic 2 2 0 (fun _ => 0) (fun _ => 0) 5 (0, 0) rfl

/-- Counterexample to C2 as stated: with negative `rows`, a `dirt_prob` of
`2` (outside `[0,1]`) and a negative `max_steps`, nothing fails — the
room is built (with an empty grid) and `run_episode` returns a normal
record instead of signalling an invalid configuration. -/
theorem invalid_params_counterexample :
    run_episode (-1) 3 2 (fun _ => (0 : ℚ)) (-5) (0, 0) =
      some ⟨-1, 3, 0, 0, 0, true⟩ := by
  rfl

/-- C2 amended: invalid construction parameters are accepted silently
rather than rejected — negative dimensions give an empty grid so the
episode reports immediate success, and a non-positive step budget gives an
episode that takes zero steps. -/
theorem invalid_params_defaulted (rows cols : Int) (prob : ℚ) (rnd : Nat → ℚ)
    (ms : Int) (st : Pos) :
    ((rows < 0 ∨ cols < 0) →
      run_episode rows cols prob rnd ms st = some ⟨rows, cols, 0, 0, 0, true⟩) ∧
    (ms ≤ 0 →
      ∃ res, run_episode rows cols prob rnd ms st = some res ∧ res.steps_taken = 0) := by
  constructor
  · intro h
    have hz : (mkRoom rows cols prob rnd).dirt_count = 0 := by
      apply dirt_count_zero_of_degenerate
      rcases h with h | h
      · left; simp only [mkRoom]; omega
      · right; simp only [mkRoom]; omega
    simp only [run_episode]
    rw [runLoop_dirt_zero _ _ _ _ hz]
    simp [hz]
  · intro h
    have hms : ms.toNat = 0 := Int.toNat_of_nonpos h
    simp only [run_episode, hms, runLoop]
    exact ⟨_, rfl, rfl⟩

/-- Witness for C2 amended, at negative rows and at a negative step
budget. -/
theorem invalid_params_defaulted_witness :
    run_episode (-2) 3 5 (fun _ => (0 : ℚ)) 7 (0, 0) = some ⟨-2, 3, 0, 0, 0, true⟩ ∧
    (∃ res, run_episode 2 2 0 (fun _ => (0 : ℚ)) (-3) (0, 0) = some res ∧
      res.steps_taken = 0) :=
  ⟨(invalid_params_defaulted (-2) 3 5 (fun _ => 0) 7 (0, 0)).1 (Or.inl (by decide)),
   (invalid_params_defaulted 2 2 0 (fun _ => 0) (-3) (0, 0)).2 (by decide)⟩

/-- Counterexample to C3 as stated: on a 2×2 room the out-of-bounds
position `(-1, 0)` does not make `is_dirty` or `clean` fail — Python's
negative indexing wraps to the last row, so `is_dirty` returns a value
and `clean` succeeds (mutating cell `(1, 0)`). -/
theorem negative_index_counterexample :
    (mkRoom 2 2 0 (fun _ => (0 : ℚ))).is_dirty (-1, 0) = some false ∧
    ((mkRoom 2 2 0 (fun _ => (0 : ℚ))).clean (-1, 0)).isSome = true := by
  constructor <;> decide

/-- C3 amended: for a well-formed room, positions at or beyond an upper
bound, or below the negated bound, make `is_dirty` and `clean` fail
(`IndexError`); negative coordinates within one bound of zero instead wrap
around Python-style, so not every out-of-bounds position fails. -/
theorem out_of_range_fails (room : Room) (p : Pos) (hwf : room.wf)
    (h : room.rows ≤ p.1 ∨ p.1 < -room.rows ∨ room.cols ≤ p.2 ∨ p.2 < -room.cols) :
    room.is_dirty p = none ∧ room.clean p = none := by
  have hlen : room.grid.length = room.rows.toNat := hwf.1
  by_cases hrow : (room.grid.length : Int) ≤ p.1 ∨ p.1 < -(room.grid.length : Int)
  · have hg := pyGet_none room.grid p.1 hrow
    constructor <;> simp [Room.is_dirty, Room.clean, hg]
  · push_neg at hrow
    obtain ⟨h1, h2⟩ := hrow
    obtain ⟨row, hrowget, hrowmem⟩ := pyGet_some_mem room.grid p.1 h1 h2
    have hrl : row.length = room.cols.toNat := hwf.2 row hrowmem
    have hcol : (row.length : Int) ≤ p.2 ∨ p.2 < -(row.length : Int) := by
      rcases h with h | h | h | h
      · exfalso; omega
      · exfalso; omega
      · rw [hrl]; omega
      · rw [hrl]; omega
    refine ⟨?_, ?_⟩
    · simp [Room.is_dirty, hrowget, pyGet_none row p.2 hcol]
    · simp [Room.clean, hrowget, pySet_none row p.2 false hcol]

/-- Witness for C3 amended: position `(2, 0)` on a 2×2 room makes both
operations fail. -/
theorem out_of_range_fails_witness :
    (mkRoom 2 2 0 (fun _ => (0 : ℚ))).is_dirty (2, 0) = none ∧
    (mkRoom 2 2 0 (fun _ => (0 : ℚ))).clean (2, 0) = none :=
  out_of_range_fails (mkRoom 2 2 0 (fun _ => (0 : ℚ))) (2, 0) (by decide)
    (Or.inl (by decide))

lemma pyGet_resolve {α : Type} (l : List α) (i : Int) (a : α) (h : pyGet l i = some a) :
    ∃ n, n < l.length ∧ l.get? n = some a ∧ ∀ b, pySet l i b = some (l.set n b) := by
  rw [pyGet_eq] at h
  by_cases hi : i < 0
  · rw [if_pos hi] at h
    by_cases hj : i + (l.length : Int) < 0
    · rw [if_pos hj] at h; exact absurd h (by simp)
    · rw [if_neg hj] at h
      have hn : (i + (l.length : Int)).toNat < l.length := by
        by_contra hge
        rw [List.get?_eq_none.mpr (by omega)] at h
        exact absurd h (by simp)
      refine ⟨(i + (l.length : Int)).toNat, hn, h, fun b => ?_⟩
      rw [pySet_eq, if_pos hi, if_neg hj, if_pos (by omega)]
  · rw [if_neg hi] at h
    have hn : i.toNat < l.length := by
      by_contra hge
      rw [List.get?_eq_none.mpr (by omega)] at h
      exact absurd h (by simp)
    refine ⟨i.toNat, hn, h, fun b => ?_⟩
    rw [pySet_eq, if_neg hi, if_pos (by omega)]

lemma pySet_resolve {α : Type} (l : List α) (i : Int) (b : α) (l2 : List α)
    (h : pySet l i b = some l2) : ∃ n, n < l.length ∧ l2 = l.set n b := by
  rw [pySet_eq] at h
  by_cases hi : i < 0
  · rw [if_pos hi] at h
    by_cases hj : i + (l.length : Int) < 0
    · rw [if_pos hj] at h; exact absurd h (by simp)
    · rw [if_neg hj, if_pos (by omega)] at h
      exact ⟨(i + (l.length : Int)).toNat, by omega, (Option.some_inj.mp h).symm⟩
  · rw [if_neg hi] at h
    by_cases hj : i < (l.length : Int)
    · rw [if_pos hj] at h
      exact ⟨i.toNat, by omega, (Option.some_inj.mp h).symm⟩
    · rw [if_neg hj] at h; exact absurd h (by simp)

lemma clean_spec (room : Room) (p : Pos) (room' : Room) (h : room.clean p = some room') :
    ∃ n row k, room.grid.get? n = some row ∧
      room'.rows = room.rows ∧ room'.cols = room.cols ∧
      room'.grid = room.grid.set n (row.set k false) := by
  unfold Room.clean at h
  cases hg : pyGet room.grid p.1 with
  | none => rw [hg] at h; exact absurd h (by simp)
  | some row =>
    rw [hg] at h
    simp only [Option.some_bind] at h
    cases hs : pySet row p.2 false with
    | none => rw [hs] at h; exact absurd h (by simp)
    | some row2 =>
      rw [hs] at h
      simp only [Option.some_bind] at h
      obtain ⟨n, hn, hget, hset⟩ := pyGet_resolve room.grid p.1 row hg
      rw [hset row2] at h
      obtain ⟨k, hk, hrow2⟩ := pySet_resolve row p.2 false row2 hs
      simp only [Option.some_bind, Option.map_some'] at h
      refine ⟨n, row, k, hget, ?_, ?_, ?_⟩ <;>
        rw [← Option.some_inj.mp h, hrow2]

lemma cellD_set (g : List (List Bool)) (r c : Nat) (row : List Bool)
    (hrow : g.get? r = some row) (i j : Nat) :
    cellD (g.set r (row.set c false)) i j =
      if i = r ∧ j = c then false else cellD g i j := by
  unfold cellD
  rw [List.get?_set]
  by_cases hir : r = i
  · subst hir
    rw [if_pos rfl, hrow]
    have hred : ((fun _ : List Bool => row.set c false) <$> (some row : Option (List Bool)))
        = some (row.set c false) := rfl
    rw [hred]
    simp only [Option.getD_some]
    rw [List.get?_set]
    by_cases hjc : c = j
    · subst hjc
      rw [if_pos rfl, if_pos (by simp)]
      cases row.get? c <;> rfl
    · rw [if_neg hjc, if_neg (by simp only [true_and]; omega)]
  · rw [if_neg hir, if_neg (fun hand => hir hand.1.symm)]

lemma clean_inb (room : Room) (hwf : room.wf) (r c : Nat)
    (hr : r < room.rows.toNat) (hc : c < room.cols.toNat) :
    ∃ row, room.grid.get? r = some row ∧
      room.clean ((r : Int), (c : Int)) =
        some ⟨room.rows, room.cols, room.grid.set r (row.set c false)⟩ := by
  have hrl : r < room.grid.length := by rw [hwf.1]; exact hr
  have hget : room.grid.get? r = some (room.grid.get ⟨r, hrl⟩) := List.get?_eq_get hrl
  set row := room.grid.get ⟨r, hrl⟩ with hrowdef
  have hmem : row ∈ room.grid := List.get_mem _ _ _
  have hrowlen : row.length = room.cols.toNat := hwf.2 _ hmem
  refine ⟨row, hget, ?_⟩
  unfold Room.clean
  have hp1 : ((r : Int), (c : Int)).1 = ((r : Nat) : Int) := rfl
  have hp2 : ((r : Int), (c : Int)).2 = ((c : Nat) : Int) := rfl
  rw [hp1, hp2, pyGet_nat, hget]
  simp only [Option.some_bind]
  rw [pySet_nat, if_pos (by rw [hrowlen]; exact hc)]
  simp only [Option.some_bind]
  rw [pySet_nat, if_pos hrl]
  rfl

lemma dirt_count_pos (room : Room) (i j : Nat)
    (hi : i < room.rows.toNat) (hj : j < room.cols.toNat)
    (h : cellD room.grid i j = true) : 0 < room.dirt_count := by
  unfold Room.dirt_count
  by_contra hz
  push_neg at hz
  have hsum : ((List.range room.rows.toNat).map (fun r =>
      (List.range room.cols.toNat).countP (fun c => cellD room.grid r c))).sum = 0 := by
    omega
  have hmem : (List.range room.cols.toNat).countP (fun c => cellD room.grid i c) ∈
      (List.range room.rows.toNat).map (fun r =>
        (List.range room.cols.toNat).countP (fun c => cellD room.grid r c)) :=
    List.mem_map_of_mem _ (List.mem_range.mpr hi)
  have hzero := List.sum_eq_zero_iff.mp hsum _ hmem
  have hpos : 0 < (List.range room.cols.toNat).countP (fun c => cellD room.grid i c) :=
    List.countP_pos_iff.mpr ⟨j, List.mem_range.mpr hj, h⟩
  omega

lemma dirt_count_zero (room : Room)
    (h : ∀ i j, i < room.rows.toNat → j < room.cols.toNat → cellD room.grid i j = false) :
    room.dirt_count = 0 := by
  unfold Room.dirt_count
  apply List.sum_eq_zero
  intro x hx
  simp only [List.mem_map, List.mem_range] at hx
  obtain ⟨r, hr, rfl⟩ := hx
  apply List.countP_eq_zero.mpr
  intro c hc
  simp [h r c hr (List.mem_range.mp hc)]

lemma dirt_count_mono (room room' : Room)
    (hr : room'.rows = room.rows) (hc : room'.cols = room.cols)
    (h : ∀ i j, cellD room'.grid i j = true → cellD room.grid i j = true) :
    room'.dirt_count ≤ room.dirt_count := by
  unfold Room.dirt_count
  rw [hr, hc]
  apply List.sum_le_sum
  intro r _
  apply List.countP_mono_left
  intro c _ hp
  exact h r c hp

lemma step_spec (room : Room) (pos : Pos) (a : String) (rp : Room × Pos)
    (h : step room pos a = some rp) :
    rp.1.rows = room.rows ∧ rp.1.cols = room.cols ∧
    (∀ i j, cellD rp.1.grid i j = true → cellD room.grid i j = true) := by
  unfold step at h
  by_cases h1 : a = "SUCK"
  · rw [if_pos h1] at h
    cases hc : room.clean pos with
    | none => rw [hc] at h; exact absurd h (by simp)
    | some room2 =>
      rw [hc] at h
      simp only [Option.map_some'] at h
      obtain ⟨n, row, k, hget, e1, e2, e3⟩ := clean_spec room pos room2 hc
      have hrp : rp = (room2, pos) := (Option.some_inj.mp h).symm
      subst hrp
      refine ⟨e1, e2, ?_⟩
      intro i j hij
      rw [e3, cellD_set room.grid n k row hget i j] at hij
      by_cases hnk : i = n ∧ j = k
      · rw [if_pos hnk] at hij; exact absurd hij (by simp)
      · rwa [if_neg hnk] at hij
  · rw [if_neg h1] at h
    by_cases h2 : a = "UP"
    · rw [if_pos h2] at h
      have hrp : rp = (room, _) := (Option.some_inj.mp h).symm
      subst hrp; exact ⟨rfl, rfl, fun i j hij => hij⟩
    · rw [if_neg h2] at h
      by_cases h3 : a = "DOWN"
      · rw [if_pos h3] at h
        have hrp : rp = (room, _) := (Option.some_inj.mp h).symm
        subst hrp; exact ⟨rfl, rfl, fun i j hij => hij⟩
      · rw [if_neg h3] at h
        by_cases h4 : a = "LEFT"
        · rw [if_pos h4] at h
          have hrp : rp = (room, _) := (Option.some_inj.mp h).symm
          subst hrp; exact ⟨rfl, rfl, fun i j hij => hij⟩
        · rw [if_neg h4] at h
          by_cases h5 : a = "RIGHT"
          · rw [if_pos h5] at h
            have hrp : rp = (room, _) := (Option.some_inj.mp h).symm
            subst hrp; exact ⟨rfl, rfl, fun i j hij => hij⟩
          · rw [if_neg h5] at h
            have hrp : rp = (room, pos) := (Option.some_inj.mp h).symm
            subst hrp; exact ⟨rfl, rfl, fun i j hij => hij⟩

lemma runLoop_facts : ∀ (fuel : Nat) (room : Room) (d : Int) (pos : Pos) (out : LoopOut),
    runLoop fuel room d pos = some out →
    out.room.rows = room.rows ∧ out.room.cols = room.cols ∧
    out.steps ≤ fuel ∧ (out.room.dirt_count = 0 ∨ out.steps = fuel) ∧
    (∀ i j, cellD out.room.grid i j = true → cellD room.grid i j = true) := by
  intro fuel
  induction fuel with
  | zero =>
    intro room d pos out h
    simp only [runLoop] at h
    have hout : out = ⟨room, pos, 0, [], false⟩ := (Option.some_inj.mp h).symm
    subst hout
    exact ⟨rfl, rfl, Nat.le_refl 0, Or.inr rfl, fun i j hij => hij⟩
  | succ n ih =>
    intro room d pos out h
    simp only [runLoop] at h
    by_cases hd : room.dirt_count > 0
    · rw [if_pos hd] at h
      cases hp : get_percept room pos with
      | none => simp only [hp] at h; exact absurd h (by simp)
      | some percept =>
        simp only [hp] at h
        rcases hca : choose_action d percept with ⟨action, d2⟩
        simp only [hca] at h
        cases hs : step room pos action with
        | none => simp only [hs] at h; exact absurd h (by simp)
        | some rp =>
          simp only [hs] at h
          cases hr : runLoop n rp.1 d2 rp.2 with
          | none => simp only [hr] at h; exact absurd h (by simp)
          | some sub =>
            simp only [hr] at h
            have hout : out = ⟨sub.room, sub.pos, sub.steps + 1, pos :: sub.trace,
                ((action == "NOOP") && (room.dirt_count != 0)) || sub.noopDirty⟩ :=
              (Option.some_inj.mp h).symm
            subst hout
            dsimp only
            obtain ⟨e1, e2, e3, e4, e5⟩ := ih rp.1 d2 rp.2 sub hr
            obtain ⟨f1, f2, f3⟩ := step_spec room pos action rp hs
            refine ⟨e1.trans f1, e2.trans f2, by omega, ?_, fun i j hij => f3 i j (e5 i j hij)⟩
            rcases e4 with e4 | e4
            · exact Or.inl e4
            · exact Or.inr (by omega)
    · rw [if_neg hd] at h
      have hout : out = ⟨room, pos, 0, [], false⟩ := (Option.some_inj.mp h).symm
      subst hout
      dsimp only
      exact ⟨rfl, rfl, Nat.zero_le _, Or.inl (by omega), fun i j hij => hij⟩

/-- C7: from any in-bounds position of a well-formed room, `step` succeeds
for every action token, the resulting position is in bounds, a directional
action moves one cell in its direction when possible and leaves the
position unchanged at the boundary, and any token other than
SUCK/UP/DOWN/LEFT/RIGHT (NOOP and unknown strings alike) changes
nothing. -/
theorem step_boundary_safe (room : Room) (pos : Pos) (a : String)
    (hwf : room.wf) (hin : inBounds room pos) :
    ∃ rp, step room pos a = some rp ∧
      inBounds room rp.2 ∧
      (a = "UP" → rp.2 = if pos.1 > 0 then (pos.1 - 1, pos.2) else pos) ∧
      (a = "DOWN" → rp.2 = if pos.1 < room.rows - 1 then (pos.1 + 1, pos.2) else pos) ∧
      (a = "LEFT" → rp.2 = if pos.2 > 0 then (pos.1, pos.2 - 1) else pos) ∧
      (a = "RIGHT" → rp.2 = if pos.2 < room.cols - 1 then (pos.1, pos.2 + 1) else pos) ∧
      (a ∉ (["SUCK", "UP", "DOWN", "LEFT", "RIGHT"] : List String) → rp = (room, pos)) := by
  obtain ⟨pr, pc⟩ := pos
  obtain ⟨h1, h2, h3, h4⟩ := hin
  simp only at h1 h2 h3 h4
  by_cases hsuck : a = "SUCK"
  · have hr : pr.toNat < room.rows.toNat := by omega
    have hc : pc.toNat < room.cols.toNat := by omega
    obtain ⟨row, hrow, hclean⟩ := clean_inb room hwf pr.toNat pc.toNat hr hc
    have hpr : ((pr.toNat : Nat) : Int) = pr := Int.toNat_of_nonneg h1
    have hpc : ((pc.toNat : Nat) : Int) = pc := Int.toNat_of_nonneg h3
    rw [hpr, hpc] at hclean
    refine ⟨(⟨room.rows, room.cols, room.grid.set pr.toNat (row.set pc.toNat false)⟩,
      (pr, pc)), ?_, ⟨h1, h2, h3, h4⟩, ?_, ?_, ?_, ?_, ?_⟩
    · unfold step
      rw [if_pos hsuck, hclean]
      rfl
    · intro hx; rw [hsuck] at hx; exact absurd hx (by decide)
    · intro hx; rw [hsuck] at hx; exact absurd hx (by decide)
    · intro hx; rw [hsuck] at hx; exact absurd hx (by decide)
    · intro hx; rw [hsuck] at hx; exact absurd hx (by decide)
    · intro hx; rw [hsuck] at hx; exact absurd (by decide : "SUCK" ∈
        (["SUCK", "UP", "DOWN", "LEFT", "RIGHT"] : List String)) hx
  · by_cases hup : a = "UP"
    · refine ⟨(room, if pr > 0 then (pr - 1, pc) else (pr, pc)), ?_, ?_, ?_, ?_, ?_, ?_, ?_⟩
      · unfold step; rw [if_neg hsuck, if_pos hup]
      · by_cases hz : pr > 0 <;> simp only [hz, if_true, if_false, ite_true, ite_false] <;>
          exact ⟨by omega, by omega, h3, h4⟩
      · intro _; rfl
      · intro hx; exact absurd hx (by rw [hup] at hsuck ⊢; decide)
      · intro hx; exact absurd hx (by rw [hup] at hsuck ⊢; decide)
      · intro hx; exact absurd hx (by rw [hup] at hsuck ⊢; decide)
      · intro hx; rw [hup] at hx; exact absurd (by decide : "UP" ∈
          (["SUCK", "UP", "DOWN", "LEFT", "RIGHT"] : List String)) hx
    · by_cases hdown : a = "DOWN"
      · refine ⟨(room, if pr < room.rows - 1 then (pr + 1, pc) else (pr, pc)),
          ?_, ?_, ?_, ?_, ?_, ?_, ?_⟩
        · unfold step; rw [if_neg hsuck, if_neg hup, if_pos hdown]
        · by_cases hz : pr < room.rows - 1 <;>
            simp only [hz, if_true, if_false, ite_true, ite_false] <;>
            exact ⟨by omega, by omega, h3, h4⟩
        · intro hx; exact absurd hx (by rw [hdown] at hsuck ⊢; decide)
        · intro _; rfl
        · intro hx; exact absurd hx (by rw [hdown] at hsuck ⊢; decide)
        · intro hx; exact absurd hx (by rw [hdown] at hsuck ⊢; decide)
        · intro hx; rw [hdown] at hx; exact absurd (by decide : "DOWN" ∈
            (["SUCK", "UP", "DOWN", "LEFT", "RIGHT"] : List String)) hx
      · by_cases hleft : a = "LEFT"
        · refine ⟨(room, if pc > 0 then (pr, pc - 1) else (pr, pc)),
            ?_, ?_, ?_, ?_, ?_, ?_, ?_⟩
          · unfold step; rw [if_neg hsuck, if_neg hup, if_neg hdown, if_pos hleft]
          · by_cases hz : pc > 0 <;>
              simp only [hz, if_true, if_false, ite_true, ite_false] <;>
              exact ⟨h1, h2, by omega, by omega⟩
          · intro hx; exact absurd hx (by rw [hleft] at hsuck ⊢; decide)
          · intro hx; exact absurd hx (by rw [hleft] at hsuck ⊢; decide)
          · intro _; rfl
          · intro hx; exact absurd hx (by rw [hleft] at hsuck ⊢; decide)
          · intro hx; rw [hleft] at hx; exact absurd (by decide : "LEFT" ∈
              (["SUCK", "UP", "DOWN", "LEFT", "RIGHT"] : List String)) hx
        · by_cases hright : a = "RIGHT"
          · refine ⟨(room, if pc < room.cols - 1 then (pr, pc + 1) else (pr, pc)),
              ?_, ?_, ?_, ?_, ?_, ?_, ?_⟩
            · unfold step
              rw [if_neg hsuck, if_neg hup, if_neg hdown, if_neg hleft, if_pos hright]
            · by_cases hz : pc < room.cols - 1 <;>
                simp only [hz, if_true, if_false, ite_true, ite_false] <;>
                exact ⟨h1, h2, by omega, by omega⟩
            · intro hx; exact absurd hx (by rw [hright] at hsuck ⊢; decide)
            · intro hx; exact absurd hx (by rw [hright] at hsuck ⊢; decide)
            · intro hx; exact absurd hx (by rw [hright] at hsuck ⊢; decide)
            · intro _; rfl
            · intro hx; rw [hright] at hx; exact absurd (by decide : "RIGHT" ∈
                (["SUCK", "UP", "DOWN", "LEFT", "RIGHT"] : List String)) hx
          · refine ⟨(room, (pr, pc)), ?_, ⟨h1, h2, h3, h4⟩, ?_, ?_, ?_, ?_, fun _ => rfl⟩
            · unfold step
              rw [if_neg hsuck, if_neg hup, if_neg hdown, if_neg hleft, if_neg hright]
            · intro hx; exact absurd hx hup
            · intro hx; exact absurd hx hdown
            · intro hx; exact absurd hx hleft
            · intro hx; exact absurd hx hright

/-- Witness for C7 at a concrete room, position and unknown token. -/
theorem step_boundary_safe_witness :
    ∃ rp, step (mkRoom 2 2 0 (fun _ => (0 : ℚ))) (0, 0) "JUMP" = some rp ∧
      inBounds (mkRoom 2 2 0 (fun _ => (0 : ℚ))) rp.2 ∧
      ("JUMP" = "UP" → rp.2 = if (0 : Int) > 0 then ((0 : Int) - 1, (0 : Int)) else (0, 0)) ∧
      ("JUMP" = "DOWN" → rp.2 = if (0 : Int) < (mkRoom 2 2 0 (fun _ => (0 : ℚ))).rows - 1
        then ((0 : Int) + 1, (0 : Int)) else (0, 0)) ∧
      ("JUMP" = "LEFT" → rp.2 = if (0 : Int) > 0 then ((0 : Int), (0 : Int) - 1) else (0, 0)) ∧
      ("JUMP" = "RIGHT" → rp.2 = if (0 : Int) < (mkRoom 2 2 0 (fun _ => (0 : ℚ))).cols - 1
        then ((0 : Int), (0 : Int) + 1) else (0, 0)) ∧
      ("JUMP" ∉ (["SUCK", "UP", "DOWN", "LEFT", "RIGHT"] : List String) →
        rp = (mkRoom 2 2 0 (fun _ => (0 : ℚ)), (0, 0))) :=
  step_boundary_safe (mkRoom 2 2 0 (fun _ => (0 : ℚ))) (0, 0) "JUMP"
    (by decide) (by decide)

/-- C8: the episode loop runs exactly while dirt remains and the step
budget is not exhausted — whenever `run_episode` returns a record, the
success flag equals "no dirt remains", the step count never exceeds the
(effective, non-negative) budget `max_steps.toNat`, and the run stopped
either because the grid was clean or because the counter reached the
budget. -/
theorem episode_termination (rows cols : Int) (prob : ℚ) (rnd : Nat → ℚ)
    (ms : Int) (st : Pos) (res : EpisodeResult)
    (h : run_episode rows cols prob rnd ms st = some res) :
    res.cleaned_all = decide (res.dirt_remaining = 0) ∧
    res.steps_taken ≤ ms.toNat ∧
    (res.dirt_remaining = 0 ∨ res.steps_taken = ms.toNat) := by
  simp only [run_episode] at h
  cases hl : runLoop ms.toNat (mkRoom rows cols prob rnd) 1 st with
  | none => rw [hl] at h; exact absurd h (by simp)
  | some out =>
    rw [hl] at h
    simp only [Option.map_some'] at h
    have hres := (Option.some_inj.mp h).symm
    subst hres
    obtain ⟨_, _, e3, e4, _⟩ := runLoop_facts ms.toNat _ 1 st out hl
    exact ⟨rfl, e3, e4⟩

/-- Witness for C8 on a concrete 1×1 all-dirty episode. -/
theorem episode_termination_witness :
    ∃ res, run_episode 1 1 1 (fun _ => (0 : ℚ)) 5 (0, 0) = some res ∧
      (res.cleaned_all = decide (res.dirt_remaining = 0) ∧
        res.steps_taken ≤ (5 : Int).toNat ∧
        (res.dirt_remaining = 0 ∨ res.steps_taken = (5 : Int).toNat)) :=
  ⟨⟨1, 1, 1, 1, 0, true⟩, by decide,
    episode_termination 1 1 1 (fun _ => (0 : ℚ)) 5 (0, 0) ⟨1, 1, 1, 1, 0, true⟩ (by decide)⟩

/-- C10: dirt is monotone — `step` never turns a clean cell dirty
(whatever the action), and consequently every episode record satisfies
`dirt_remaining ≤ initial_dirt`. -/
theorem dirt_never_increases :
    (∀ (room : Room) (pos : Pos) (a : String) (rp : Room × Pos),
      step room pos a = some rp →
      ∀ i j, cellD rp.1.grid i j = true → cellD room.grid i j = true) ∧
    (∀ (rows cols : Int) (prob : ℚ) (rnd : Nat → ℚ) (ms : Int) (st : Pos)
      (res : EpisodeResult), run_episode rows cols prob rnd ms st = some res →
      res.dirt_remaining ≤ res.initial_dirt) := by
  constructor
  · intro room pos a rp h
    exact (step_spec room pos a rp h).2.2
  · intro rows cols prob rnd ms st res h
    simp only [run_episode] at h
    cases hl : runLoop ms.toNat (mkRoom rows cols prob rnd) 1 st with
    | none => rw [hl] at h; exact absurd h (by simp)
    | some out =>
      rw [hl] at h
      simp only [Option.map_some'] at h
      have hres := (Option.some_inj.mp h).symm
      subst hres
      obtain ⟨e1, e2, _, _, e5⟩ := runLoop_facts ms.toNat _ 1 st out hl
      exact dirt_count_mono (mkRoom rows cols prob rnd) out.room e1 e2 e5

/-- Witness for C10: a NOOP step on a dirty 1×1 room keeps the cell dirty
backwards, and a concrete episode has `dirt_remaining ≤ initial_dirt`. -/
theorem dirt_never_increases_witness :
    cellD (mkRoom 1 1 1 (fun _ => (0 : ℚ))).grid 0 0 = true ∧
    (⟨1, 1, 1, 1, 0, true⟩ : EpisodeResult).dirt_remaining ≤
      (⟨1, 1, 1, 1, 0, true⟩ : EpisodeResult).initial_dirt :=
  ⟨dirt_never_increases.1 (mkRoom 1 1 1 (fun _ => (0 : ℚ))) (0, 0) "NOOP"
      (mkRoom 1 1 1 (fun _ => (0 : ℚ)), (0, 0)) (by decide) 0 0 (by decide),
    dirt_never_increases.2 1 1 1 (fun _ => (0 : ℚ)) 5 (0, 0) ⟨1, 1, 1, 1, 0, true⟩ (by decide)⟩

lemma is_dirty_inb (room : Room) (hwf : room.wf) (r c : Nat)
    (hr : r < room.rows.toNat) (hc : c < room.cols.toNat) :
    room.is_dirty ((r : Int), (c : Int)) = some (cellD room.grid r c) := by
  have hrl : r < room.grid.length := by rw [hwf.1]; exact hr
  have hget : room.grid.get? r = some (room.grid.get ⟨r, hrl⟩) := List.get?_eq_get hrl
  have hrowlen : (room.grid.get ⟨r, hrl⟩).length = room.cols.toNat :=
    hwf.2 _ (List.get_mem _ _ _)
  have hcl : c < (room.grid.get ⟨r, hrl⟩).length := by rw [hrowlen]; exact hc
  unfold Room.is_dirty
  dsimp only
  rw [pyGet_nat, hget]
  simp only [Option.some_bind]
  rw [pyGet_nat, List.get?_eq_get hcl]
  unfold cellD
  rw [hget]
  simp only [Option.getD_some]
  rw [List.get?_eq_get hcl]
  rfl

lemma get_percept_inb (room : Room) (hwf : room.wf) (r c : Nat)
    (hr : r < room.rows.toNat) (hc : c < room.cols.toNat) :
    get_percept room ((r : Int), (c : Int)) =
      some ⟨((r : Int), (c : Int)), cellD room.grid r c,
        decide ((r : Int) = 0), decide ((r : Int) = room.rows - 1),
        decide ((c : Int) = 0), decide ((c : Int) = room.cols - 1)⟩ := by
  unfold get_percept
  rw [is_dirty_inb room hwf r c hr hc]
  rfl

lemma mkRoom_wf (rows cols : Int) (prob : ℚ) (rnd : Nat → ℚ) :
    (mkRoom rows cols prob rnd).wf := by
  constructor
  · simp [mkRoom]
  · intro row hmem
    simp only [mkRoom, List.mem_map] at hmem
    obtain ⟨r, _, hrow⟩ := hmem
    rw [← hrow]
    simp [mkRoom]

lemma runLoop_succ_eq (n : Nat) (room : Room) (d : Int) (pos : Pos)
    (P : Percept) (a : String) (d2 : Int) (rp : Room × Pos) (sub : LoopOut)
    (hdz : room.dirt_count > 0)
    (hp : get_percept room pos = some P)
    (hca : choose_action d P = (a, d2))
    (hstep : step room pos a = some rp)
    (hsub : runLoop n rp.1 d2 rp.2 = some sub) :
    runLoop (n + 1) room d pos = some ⟨sub.room, sub.pos, sub.steps + 1,
      pos :: sub.trace, ((a == "NOOP") && (room.dirt_count != 0)) || sub.noopDirty⟩ := by
  simp only [runLoop, if_pos hdz, hp, hca, hstep, hsub]

lemma runLoop_no_noop (R C : Nat) :
    ∀ (fuel : Nat) (g : List (List Bool)) (d : Int) (r c : Nat),
    g.length = R → (∀ row ∈ g, row.length = C) →
    r < R → c < C →
    cleanBefore g R C d r c →
    ∃ out, runLoop fuel ⟨(R : Int), (C : Int), g⟩ d ((r : Int), (c : Int)) = some out ∧
      out.noopDirty = false := by
  intro fuel
  induction fuel with
  | zero =>
    intro g d r c _ _ _ _ _
    exact ⟨⟨⟨(R : Int), (C : Int), g⟩, ((r : Int), (c : Int)), 0, [], false⟩, rfl, rfl⟩
  | succ n ih =>
    intro g d r c hlen hrows hr hc hCB
    have hwf : (⟨(R : Int), (C : Int), g⟩ : Room).wf := by
      refine ⟨by simpa using hlen, fun row hm => by simpa using hrows row hm⟩
    by_cases hdz : (⟨(R : Int), (C : Int), g⟩ : Room).dirt_count > 0
    · have hrtn : r < (⟨(R : Int), (C : Int), g⟩ : Room).rows.toNat := by simpa using hr
      have hctn : c < (⟨(R : Int), (C : Int), g⟩ : Room).cols.toNat := by simpa using hc
      have hp := get_percept_inb ⟨(R : Int), (C : Int), g⟩ hwf r c hrtn hctn
      by_cases hdirty : cellD g r c = true
      · -- dirty here: SUCK, position and direction unchanged
        have hca : choose_action d ⟨((r : Int), (c : Int)), cellD g r c,
            decide ((r : Int) = 0), decide ((r : Int) = (R : Int) - 1),
            decide ((c : Int) = 0), decide ((c : Int) = (C : Int) - 1)⟩ = ("SUCK", d) := by
          simp [choose_action, hdirty]
        obtain ⟨row, hrow, hclean⟩ := clean_inb ⟨(R : Int), (C : Int), g⟩ hwf r c hrtn hctn
        have hstep : step ⟨(R : Int), (C : Int), g⟩ ((r : Int), (c : Int)) "SUCK" =
            some (⟨(R : Int), (C : Int), g.set r (row.set c false)⟩, ((r : Int), (c : Int))) := by
          unfold step
          rw [if_pos rfl, hclean]
          rfl
        have hlen2 : (g.set r (row.set c false)).length = R := by
          rw [List.length_set]; exact hlen
        have hrows2 : ∀ row2 ∈ g.set r (row.set c false), row2.length = C := by
          intro row2 hm
          rcases List.mem_or_eq_of_mem_set hm with hm | hm
          · exact hrows _ hm
          · rw [hm, List.length_set]; exact hrows _ (List.get?_mem hrow)
        have hCB2 : cleanBefore (g.set r (row.set c false)) R C d r c := by
          intro i j hi hj hcond
          rw [cellD_set g r c row hrow i j]
          by_cases hij : i = r ∧ j = c
          · rw [if_pos hij]
          · rw [if_neg hij]; exact hCB i j hi hj hcond
        obtain ⟨sub, hsub, hflag⟩ := ih (g.set r (row.set c false)) d r c hlen2 hrows2 hr hc hCB2
        refine ⟨_, runLoop_succ_eq n _ d _ _ "SUCK" d _ sub hdz hp hca hstep hsub, ?_⟩
        simpa using hflag
      · -- clean here: a move (or the impossible NOOP)
        have hdirtyf : cellD g r c = false := by
          cases hcd : cellD g r c
          · rfl
          · exact absurd hcd hdirty
        by_cases hd1 : d = 1
        · subst hd1
          by_cases hcwall : c + 1 < C
          · -- RIGHT
            have hca : choose_action 1 ⟨((r : Int), (c : Int)), cellD g r c,
                decide ((r : Int) = 0), decide ((r : Int) = (R : Int) - 1),
                decide ((c : Int) = 0), decide ((c : Int) = (C : Int) - 1)⟩ = ("RIGHT", 1) := by
              simp [choose_action, hdirtyf, show ¬((c : Int) = (C : Int) - 1) by omega]
            have hstep : step ⟨(R : Int), (C : Int), g⟩ ((r : Int), (c : Int)) "RIGHT" =
                some (⟨(R : Int), (C : Int), g⟩, ((r : Int), ((c + 1 : Nat) : Int))) := by
              unfold step
              rw [if_neg (by decide), if_neg (by decide), if_neg (by decide),
                if_neg (by decide), if_pos rfl]
              dsimp only
              rw [if_pos (show (c : Int) < (C : Int) - 1 by omega)]
              norm_cast
            have hCB2 : cleanBefore g R C 1 r (c + 1) := by
              intro i j hi hj hcond
              rcases hcond with hcond | ⟨hie, hcond⟩
              · exact hCB i j hi hj (Or.inl hcond)
              · rw [if_pos rfl] at hcond
                by_cases hjc : j = c
                · subst hjc; subst hie; exact hdirtyf
                · exact hCB i j hi hj (Or.inr ⟨hie, by rw [if_pos rfl]; omega⟩)
            obtain ⟨sub, hsub, hflag⟩ := ih g 1 r (c + 1) hlen hrows hr hcwall hCB2
            refine ⟨_, runLoop_succ_eq n _ 1 _ _ "RIGHT" 1 _ sub hdz hp hca hstep hsub, ?_⟩
            simpa using hflag
          · -- wall on the right: DOWN or the corner
            by_cases hrwall : r + 1 < R
            · -- DOWN, direction flips to -1
              have hca : choose_action 1 ⟨((r : Int), (c : Int)), cellD g r c,
                  decide ((r : Int) = 0), decide ((r : Int) = (R : Int) - 1),
                  decide ((c : Int) = 0), decide ((c : Int) = (C : Int) - 1)⟩ = ("DOWN", -1) := by
                simp [choose_action, hdirtyf, show ((c : Int) = (C : Int) - 1) by omega,
                  show ¬((r : Int) = (R : Int) - 1) by omega]
              have hstep : step ⟨(R : Int), (C : Int), g⟩ ((r : Int), (c : Int)) "DOWN" =
                  some (⟨(R : Int), (C : Int), g⟩, (((r + 1 : Nat) : Int), (c : Int))) := by
                unfold step
                rw [if_neg (by decide), if_neg (by decide), if_pos rfl]
                dsimp only
                rw [if_pos (show (r : Int) < (R : Int) - 1 by omega)]
                norm_cast
              have hCB2 : cleanBefore g R C (-1) (r + 1) c := by
                intro i j hi hj hcond
                rcases hcond with hcond | ⟨hie, hcond⟩
                · -- i < r + 1
                  by_cases hir : i < r
                  · exact hCB i j hi hj (Or.inl hir)
                  · have hieq : i = r := by omega
                    subst hieq
                    by_cases hjc : j = c
                    · subst hjc; exact hdirtyf
                    · exact hCB i j hi hj (Or.inr ⟨rfl, by rw [if_pos rfl]; omega⟩)
                · rw [if_neg (by decide)] at hcond
                  omega
              obtain ⟨sub, hsub, hflag⟩ := ih g (-1) (r + 1) c hlen hrows hrwall hc hCB2
              refine ⟨_, runLoop_succ_eq n _ 1 _ _ "DOWN" (-1) _ sub hdz hp hca hstep hsub, ?_⟩
              simpa using hflag
            · -- bottom-right corner with a clean cell: the grid is clean,
              -- contradicting the loop guard
              exfalso
              have hzero : (⟨(R : Int), (C : Int), g⟩ : Room).dirt_count = 0 := by
                apply dirt_count_zero
                intro i j hi hj
                simp only [Int.toNat_natCast] at hi hj
                by_cases hir : i < r
                · exact hCB i j hi hj (Or.inl hir)
                · have hieq : i = r := by omega
                  subst hieq
                  by_cases hjc : j = c
                  · subst hjc; exact hdirtyf
                  · exact hCB i j hi hj (Or.inr ⟨rfl, by rw [if_pos rfl]; omega⟩)
              omega
        · -- d ≠ 1 : sweeping left
          by_cases hcwall : 0 < c
          · -- LEFT
            have hca : choose_action d ⟨((r : Int), (c : Int)), cellD g r c,
                decide ((r : Int) = 0), decide ((r : Int) = (R : Int) - 1),
                decide ((c : Int) = 0), decide ((c : Int) = (C : Int) - 1)⟩ = ("LEFT", d) := by
              simp [choose_action, hdirtyf, hd1, show ¬((c : Int) = 0) by omega]
            have hstep : step ⟨(R : Int), (C : Int), g⟩ ((r : Int), (c : Int)) "LEFT" =
                some (⟨(R : Int), (C : Int), g⟩, ((r : Int), ((c - 1 : Nat) : Int))) := by
              unfold step
              rw [if_neg (by decide), if_neg (by decide), if_neg (by decide), if_pos rfl]
              dsimp only
              rw [if_pos (show (c : Int) > 0 by omega)]
              have : ((c : Int) - 1) = ((c - 1 : Nat) : Int) := by omega
              rw [this]
            have hCB2 : cleanBefore g R C d r (c - 1) := by
              intro i j hi hj hcond
              rcases hcond with hcond | ⟨hie, hcond⟩
              · exact hCB i j hi hj (Or.inl hcond)
              · rw [if_neg hd1] at hcond
                by_cases hjc : j = c
                · subst hjc; subst hie; exact hdirtyf
                · exact hCB i j hi hj (Or.inr ⟨hie, by rw [if_neg hd1]; omega⟩)
            obtain ⟨sub, hsub, hflag⟩ := ih g d r (c - 1) hlen hrows hr (by omega) hCB2
            refine ⟨_, runLoop_succ_eq n _ d _ _ "LEFT" d _ sub hdz hp hca hstep hsub, ?_⟩
            simpa using hflag
          · -- wall on the left: DOWN or the corner
            have hc0 : c = 0 := by omega
            subst hc0
            by_cases hrwall : r + 1 < R
            · -- DOWN, direction flips to 1
              have hca : choose_action d ⟨((r : Int), ((0 : Nat) : Int)), cellD g r 0,
                  decide ((r : Int) = 0), decide ((r : Int) = (R : Int) - 1),
                  decide (((0 : Nat) : Int) = 0), decide (((0 : Nat) : Int) = (C : Int) - 1)⟩ =
                  ("DOWN", 1) := by
                simp [choose_action, hdirtyf, hd1, show ¬((r : Int) = (R : Int) - 1) by omega]
              have hstep : step ⟨(R : Int), (C : Int), g⟩ ((r : Int), ((0 : Nat) : Int)) "DOWN" =
                  some (⟨(R : Int), (C : Int), g⟩, (((r + 1 : Nat) : Int), ((0 : Nat) : Int))) := by
                unfold step
                rw [if_neg (by decide), if_neg (by decide), if_pos rfl]
                dsimp only
                rw [if_pos (show (r : Int) < (R : Int) - 1 by omega)]
                norm_cast
              have hCB2 : cleanBefore g R C 1 (r + 1) 0 := by
                intro i j hi hj hcond
                rcases hcond with hcond | ⟨hie, hcond⟩
                · by_cases hir : i < r
                  · exact hCB i j hi hj (Or.inl hir)
                  · have hieq : i = r := by omega
                    subst hieq
                    by_cases hjc : j = 0
                    · subst hjc; exact hdirtyf
                    · exact hCB i j hi hj (Or.inr ⟨rfl, by rw [if_neg hd1]; omega⟩)
                · rw [if_pos rfl] at hcond
                  omega
              obtain ⟨sub, hsub, hflag⟩ := ih g 1 (r + 1) 0 hlen hrows hrwall hc hCB2
              refine ⟨_, runLoop_succ_eq n _ d _ _ "DOWN" 1 _ sub hdz hp hca hstep hsub, ?_⟩
              simpa using hflag
            · -- bottom-left corner with a clean cell: grid clean, contradiction
              exfalso
              have hzero : (⟨(R : Int), (C : Int), g⟩ : Room).dirt_count = 0 := by
                apply dirt_count_zero
                intro i j hi hj
                simp only [Int.toNat_natCast] at hi hj
                by_cases hir : i < r
                · exact hCB i j hi hj (Or.inl hir)
                · have hieq : i = r := by omega
                  subst hieq
                  by_cases hjc : j = 0
                  · subst hjc; exact hdirtyf
                  · exact hCB i j hi hj (Or.inr ⟨rfl, by rw [if_neg hd1]; omega⟩)
              omega
    · refine ⟨⟨⟨(R : Int), (C : Int), g⟩, ((r : Int), (c : Int)), 0, [], false⟩, ?_, rfl⟩
      simp only [runLoop, if_neg hdz]

/-- Counterexample to C1 as stated: on a 2×1 grid whose only dirt is at
`(0, 0)`, an episode started at the in-bounds position `(1, 0)` reaches
the NOOP branch inside the loop while `dirt_count()` is nonzero (the
instrumented flag comes back `true`), so "NOOP implies the grid is fully
clean" fails for general in-bounds start positions. -/
theorem noop_with_dirt_counterexample :
    inBounds (mkRoom 2 1 1 (fun n => if n = 0 then 0 else 1)) (1, 0) ∧
    episodeNoopDirty 2 1 1 (fun n => if n = 0 then 0 else 1) 1 (1, 0) = some true := by
  constructor <;> decide

/-- C1 amended: for episodes started at the origin `(0, 0)` — the start
position every caller in the program uses — the policy never returns NOOP
at a moment where `dirt_count()` is nonzero, for all dimensions, dirt
probabilities, draw streams and budgets (indeed the loop guard makes a
NOOP with a clean grid unreachable too, so the flag is always false). -/
theorem noop_only_when_clean (rows cols : Int) (prob : ℚ) (rnd : Nat → ℚ) (ms : Int) :
    episodeNoopDirty rows cols prob rnd ms (0, 0) = some false := by
  unfold episodeNoopDirty
  by_cases hR : 0 < rows
  · by_cases hC : 0 < cols
    · have hwf := mkRoom_wf rows cols prob rnd
      have h1 : rows = ((rows.toNat : Nat) : Int) := by omega
      have h2 : cols = ((cols.toNat : Nat) : Int) := by omega
      have hroom : mkRoom rows cols prob rnd =
          ⟨((rows.toNat : Nat) : Int), ((cols.toNat : Nat) : Int),
            (mkRoom rows cols prob rnd).grid⟩ := by
        show (⟨rows, cols, _⟩ : Room) = _
        rw [← h1, ← h2]
        rfl
      obtain ⟨out, hrun, hflag⟩ := runLoop_no_noop rows.toNat cols.toNat ms.toNat
        (mkRoom rows cols prob rnd).grid 1 0 0 hwf.1 hwf.2 (by omega) (by omega)
        (by
          intro i j hi hj hcond
          rcases hcond with hcond | ⟨_, hcond⟩
          · omega
          · rw [if_pos rfl] at hcond; omega)
      rw [← hroom] at hrun
      simp only [Nat.cast_zero] at hrun
      rw [hrun]
      simp [hflag]
    · have hz : (mkRoom rows cols prob rnd).dirt_count = 0 :=
        dirt_count_zero_of_degenerate _ (Or.inr (by simp only [mkRoom]; omega))
      rw [runLoop_dirt_zero _ _ _ _ hz]
      rfl
  · have hz : (mkRoom rows cols prob rnd).dirt_count = 0 :=
      dirt_count_zero_of_degenerate _ (Or.inl (by simp only [mkRoom]; omega))
    rw [runLoop_dirt_zero _ _ _ _ hz]
    rfl

lemma sweepSeg_right_empty (C r : Nat) : sweepSeg C r C true = [] := by
  simp [sweepSeg, Nat.sub_self]

lemma sweepSeg_right_cons (C r c : Nat) (h : c < C) :
    sweepSeg C r c true = (r, c) :: sweepSeg C r (c + 1) true := by
  unfold sweepSeg
  rw [if_pos rfl, if_pos rfl, show C - c = (C - (c + 1)) + 1 by omega, List.range'_succ]
  rfl

lemma sweepSeg_left_zero (C r : Nat) : sweepSeg C r 0 false = [(r, 0)] := by
  rfl

lemma sweepSeg_left_cons (C r c : Nat) (h : 0 < c) :
    sweepSeg C r c false = (r, c) :: sweepSeg C r (c - 1) false := by
  unfold sweepSeg
  rw [if_neg (by simp), if_neg (by simp)]
  rw [show c + 1 = (c - 1 + 1) + 1 by omega, List.range_succ, List.map_append,
    List.reverse_append]
  rw [show c - 1 + 1 = c by omega]
  rfl

lemma sweepFrom_right_cons (R C r c : Nat) (h : c + 1 < C) :
    sweepFrom R C r c true = (r, c) :: sweepFrom R C r (c + 1) true := by
  unfold sweepFrom
  rw [sweepSeg_right_cons C r c (by omega)]
  rfl

lemma sweepFrom_right_down (R C r c : Nat) (hc : c + 1 = C) (hr : r + 1 < R) :
    sweepFrom R C r c true = (r, c) :: sweepFrom R C (r + 1) (C - 1) false := by
  unfold sweepFrom
  rw [sweepSeg_right_cons C r c (by omega), hc, sweepSeg_right_empty,
    show R - r - 1 = (R - r - 2) + 1 by omega,
    show sweepRows C ((R - r - 2) + 1) (r + 1) (!true) =
      sweepSeg C (r + 1) (C - 1) false ++ sweepRows C (R - r - 2) (r + 2) true from rfl,
    show R - (r + 1) - 1 = R - r - 2 by omega]
  rfl

lemma sweepFrom_right_last (R C r c : Nat) (hc : c + 1 = C) (hr : r + 1 = R) :
    sweepFrom R C r c true = [(r, c)] := by
  unfold sweepFrom
  rw [sweepSeg_right_cons C r c (by omega), hc, sweepSeg_right_empty,
    show R - r - 1 = 0 by omega]
  rfl

lemma sweepFrom_left_cons (R C r c : Nat) (h : 0 < c) :
    sweepFrom R C r c false = (r, c) :: sweepFrom R C r (c - 1) false := by
  unfold sweepFrom
  rw [sweepSeg_left_cons C r c h]
  rfl

lemma sweepFrom_left_down (R C r : Nat) (hr : r + 1 < R) :
    sweepFrom R C r 0 false = (r, 0) :: sweepFrom R C (r + 1) 0 true := by
  unfold sweepFrom
  rw [sweepSeg_left_zero, show R - r - 1 = (R - r - 2) + 1 by omega,
    show sweepRows C ((R - r - 2) + 1) (r + 1) (!false) =
      sweepSeg C (r + 1) 0 true ++ sweepRows C (R - r - 2) (r + 2) false from rfl,
    show R - (r + 1) - 1 = R - r - 2 by omega]
  rfl

lemma sweepFrom_left_last (R C r : Nat) (hr : r + 1 = R) :
    sweepFrom R C r 0 false = [(r, 0)] := by
  unfold sweepFrom
  rw [sweepSeg_left_zero, show R - r - 1 = 0 by omega]
  rfl

lemma sweepFrom_head (R C r c : Nat) (d : Bool) (hr : r < R) (hc : c < C) :
    ∃ L2, sweepFrom R C r c d = (r, c) :: L2 := by
  cases d
  · by_cases h : 0 < c
    · exact ⟨_, sweepFrom_left_cons R C r c h⟩
    · have hc0 : c = 0 := by omega
      subst hc0
      by_cases h2 : r + 1 < R
      · exact ⟨_, sweepFrom_left_down R C r h2⟩
      · exact ⟨_, sweepFrom_left_last R C r (by omega)⟩
  · by_cases h : c + 1 < C
    · exact ⟨_, sweepFrom_right_cons R C r c h⟩
    · by_cases h2 : r + 1 < R
      · exact ⟨_, sweepFrom_right_down R C r c (by omega) h2⟩
      · exact ⟨_, sweepFrom_right_last R C r c (by omega) (by omega)⟩

lemma mem_sweepSeg_fst (C r c : Nat) (d : Bool) (p : Nat × Nat)
    (h : p ∈ sweepSeg C r c d) : p.1 = r := by
  unfold sweepSeg at h
  cases d
  · rw [if_neg (by simp), List.mem_reverse] at h
    obtain ⟨j, _, hp⟩ := List.mem_map.mp h
    rw [← hp]
  · rw [if_pos rfl] at h
    obtain ⟨j, _, hp⟩ := List.mem_map.mp h
    rw [← hp]

lemma mem_sweepSeg_snd (C r c : Nat) (d : Bool) (p : Nat × Nat)
    (h : p ∈ sweepSeg C r c d) (hc : c < C) : p.2 < C := by
  unfold sweepSeg at h
  cases d
  · rw [if_neg (by simp), List.mem_reverse] at h
    obtain ⟨j, hj, hp⟩ := List.mem_map.mp h
    rw [← hp]
    have := List.mem_range.mp hj
    omega
  · rw [if_pos rfl] at h
    obtain ⟨j, hj, hp⟩ := List.mem_map.mp h
    rw [← hp]
    have := List.mem_range'_1.mp hj
    omega

lemma mem_sweepRows_fst (C : Nat) : ∀ (n r : Nat) (d : Bool) (p : Nat × Nat),
    p ∈ sweepRows C n r d → r ≤ p.1 ∧ p.1 < r + n := by
  intro n
  induction n with
  | zero => intro r d p h; simp [sweepRows] at h
  | succ m ih =>
    intro r d p h
    rw [show sweepRows C (m + 1) r d =
      sweepSeg C r (if d then 0 else C - 1) d ++ sweepRows C m (r + 1) (!d) from rfl] at h
    rcases List.mem_append.mp h with h | h
    · have := mem_sweepSeg_fst C r _ d p h
      omega
    · have := ih (r + 1) (!d) p h
      omega

lemma mem_sweepRows_snd (C : Nat) (hC : 0 < C) : ∀ (n r : Nat) (d : Bool) (p : Nat × Nat),
    p ∈ sweepRows C n r d → p.2 < C := by
  intro n
  induction n with
  | zero => intro r d p h; simp [sweepRows] at h
  | succ m ih =>
    intro r d p h
    rw [show sweepRows C (m + 1) r d =
      sweepSeg C r (if d then 0 else C - 1) d ++ sweepRows C m (r + 1) (!d) from rfl] at h
    rcases List.mem_append.mp h with h | h
    · exact mem_sweepSeg_snd C r _ d p h (by split <;> omega)
    · exact ih (r + 1) (!d) p h

lemma mem_sweepFrom_bounds (R C r c : Nat) (d : Bool) (p : Nat × Nat)
    (h : p ∈ sweepFrom R C r c d) (hr : r < R) (hc : c < C) :
    p.1 < R ∧ p.2 < C := by
  unfold sweepFrom at h
  rcases List.mem_append.mp h with h | h
  · have h1 := mem_sweepSeg_fst C r c d p h
    have h2 := mem_sweepSeg_snd C r c d p h hc
    omega
  · have h1 := mem_sweepRows_fst C (R - r - 1) (r + 1) (!d) p h
    have h2 := mem_sweepRows_snd C (by omega) (R - r - 1) (r + 1) (!d) p h
    omega

lemma nodup_sweepSeg (C r c : Nat) (d : Bool) : (sweepSeg C r c d).Nodup := by
  unfold sweepSeg
  have hinj : Function.Injective (fun j : Nat => (r, j)) := by
    intro a b hab
    exact (Prod.mk.injEq r a r b).mp hab |>.2
  cases d
  · rw [if_neg (by simp), List.nodup_reverse]
    exact List.Nodup.map hinj (List.nodup_range _)
  · rw [if_pos rfl]
    exact List.Nodup.map hinj (List.nodup_range' _ _)

lemma nodup_sweepRows (C : Nat) : ∀ (n r : Nat) (d : Bool), (sweepRows C n r d).Nodup := by
  intro n
  induction n with
  | zero => intro r d; exact List.nodup_nil
  | succ m ih =>
    intro r d
    rw [show sweepRows C (m + 1) r d =
      sweepSeg C r (if d then 0 else C - 1) d ++ sweepRows C m (r + 1) (!d) from rfl]
    refine List.Nodup.append (nodup_sweepSeg C r _ d) (ih (r + 1) (!d)) ?_
    intro p hp1 hp2
    have h1 := mem_sweepSeg_fst C r _ d p hp1
    have h2 := mem_sweepRows_fst C m (r + 1) (!d) p hp2
    omega

lemma nodup_sweepFrom (R C r c : Nat) (d : Bool) : (sweepFrom R C r c d).Nodup := by
  unfold sweepFrom
  refine List.Nodup.append (nodup_sweepSeg C r c d) (nodup_sweepRows C _ (r + 1) (!d)) ?_
  intro p hp1 hp2
  have h1 := mem_sweepSeg_fst C r c d p hp1
  have h2 := mem_sweepRows_fst C (R - r - 1) (r + 1) (!d) p hp2
  omega

lemma length_sweepSeg_full (C r : Nat) (d : Bool) (hC : 0 < C) :
    (sweepSeg C r (if d then 0 else C - 1) d).length = C := by
  unfold sweepSeg
  cases d <;> simp <;> omega

lemma length_sweepRows (C : Nat) (hC : 0 < C) : ∀ (n r : Nat) (d : Bool),
    (sweepRows C n r d).length = n * C := by
  intro n
  induction n with
  | zero => intro r d; simp [sweepRows]
  | succ m ih =>
    intro r d
    rw [show sweepRows C (m + 1) r d =
      sweepSeg C r (if d then 0 else C - 1) d ++ sweepRows C m (r + 1) (!d) from rfl,
      List.length_append, ih (r + 1) (!d), length_sweepSeg_full C r d hC]
    ring

lemma sweepFrom_full_eq (R C : Nat) (hR : 0 < R) :
    sweepFrom R C 0 0 true = sweepRows C R 0 true := by
  unfold sweepFrom
  obtain ⟨R2, rfl⟩ : ∃ R2, R = R2 + 1 := ⟨R - 1, by omega⟩
  rw [show R2 + 1 - 0 - 1 = R2 by omega,
    show sweepRows C (R2 + 1) 0 true =
      sweepSeg C 0 (if true then 0 else C - 1) true ++ sweepRows C R2 1 (!true) from rfl]
  rfl

lemma length_sweepFrom_full (R C : Nat) (hR : 0 < R) (hC : 0 < C) :
    (sweepFrom R C 0 0 true).length = R * C := by
  rw [sweepFrom_full_eq R C hR, length_sweepRows C hC R 0 true]

lemma mem_sweepSeg_full (C r : Nat) (d : Bool) (i j : Nat) (hC : 0 < C) :
    (i, j) ∈ sweepSeg C r (if d then 0 else C - 1) d ↔ (i = r ∧ j < C) := by
  unfold sweepSeg
  cases d
  · rw [if_neg (by simp), if_neg (by simp), List.mem_reverse]
    constructor
    · intro h
      obtain ⟨x, hx, hp⟩ := List.mem_map.mp h
      injection hp with h1 h2
      have := List.mem_range.mp hx
      omega
    · rintro ⟨rfl, hj⟩
      exact List.mem_map.mpr ⟨j, List.mem_range.mpr (by omega), rfl⟩
  · rw [if_pos rfl, if_pos rfl]
    constructor
    · intro h
      obtain ⟨x, hx, hp⟩ := List.mem_map.mp h
      injection hp with h1 h2
      have := List.mem_range'_1.mp hx
      omega
    · rintro ⟨rfl, hj⟩
      exact List.mem_map.mpr ⟨j, List.mem_range'_1.mpr (by omega), rfl⟩

lemma mem_sweepRows_full (C : Nat) (hC : 0 < C) : ∀ (n r : Nat) (d : Bool) (i j : Nat),
    (i, j) ∈ sweepRows C n r d ↔ (r ≤ i ∧ i < r + n ∧ j < C) := by
  intro n
  induction n with
  | zero => intro r d i j; simp [sweepRows]; omega
  | succ m ih =>
    intro r d i j
    rw [show sweepRows C (m + 1) r d =
      sweepSeg C r (if d then 0 else C - 1) d ++ sweepRows C m (r + 1) (!d) from rfl,
      List.mem_append, mem_sweepSeg_full C r d i j hC, ih (r + 1) (!d) i j]
    omega

lemma mem_sweepFrom_full (R C : Nat) (hR : 0 < R) (hC : 0 < C) (i j : Nat) :
    (i, j) ∈ sweepFrom R C 0 0 true ↔ (i < R ∧ j < C) := by
  rw [sweepFrom_full_eq R C hR, mem_sweepRows_full C hC R 0 true i j]
  omega

lemma dedupConsec_cons_cons (p q : Pos) (t : List Pos) (hne : p ≠ q) :
    dedupConsec (p :: p :: q :: t) = p :: dedupConsec (q :: t) := by
  show (if p = p then dedupConsec (p :: q :: t) else p :: dedupConsec (p :: q :: t)) = _
  rw [if_pos rfl]
  show (if p = q then dedupConsec (q :: t) else p :: dedupConsec (q :: t)) = _
  rw [if_neg hne]

lemma sweepRun (R C : Nat) :
    ∀ (k : Nat) (fuel : Nat) (g : List (List Bool)) (d : Bool) (r c : Nat),
    g.length = R → (∀ row ∈ g, row.length = C) →
    r < R → c < C →
    (sweepFrom R C r c d).length = k + 1 →
    (∀ i j, i < R → j < C → (cellD g i j = true ↔ (i, j) ∈ sweepFrom R C r c d)) →
    2 * k + 1 ≤ fuel →
    ∃ out, runLoop fuel ⟨(R : Int), (C : Int), g⟩ (if d then 1 else -1)
        ((r : Int), (c : Int)) = some out ∧
      out.steps = 2 * k + 1 ∧
      (∀ i j, i < R → j < C → cellD out.room.grid i j = false) ∧
      dedupConsec out.trace = (sweepFrom R C r c d).map toPos ∧
      out.trace.head? = some (toPos (r, c)) := by
  intro k
  induction k with
  | zero =>
    intro fuel g d r c hlen hrows hr hc hL hchar hfuel
    obtain ⟨L2, hL2⟩ := sweepFrom_head R C r c d hr hc
    have hL2nil : L2 = [] := by
      have hx := hL
      rw [hL2] at hx
      simp only [List.length_cons, Nat.add_left_inj] at hx
      exact List.eq_nil_of_length_eq_zero hx
    rw [hL2nil] at hL2
    have hwf : (⟨(R : Int), (C : Int), g⟩ : Room).wf := by
      refine ⟨by simpa using hlen, fun row hm => by simpa using hrows row hm⟩
    have hrtn : r < (⟨(R : Int), (C : Int), g⟩ : Room).rows.toNat := by simpa using hr
    have hctn : c < (⟨(R : Int), (C : Int), g⟩ : Room).cols.toNat := by simpa using hc
    have hdirty : cellD g r c = true := by
      refine (hchar r c hr hc).mpr ?_
      rw [hL2]
      exact List.mem_singleton_self _
    have hp := get_percept_inb ⟨(R : Int), (C : Int), g⟩ hwf r c hrtn hctn
    have hca : choose_action (if d then 1 else -1) ⟨((r : Int), (c : Int)), cellD g r c,
        decide ((r : Int) = 0), decide ((r : Int) = (R : Int) - 1),
        decide ((c : Int) = 0), decide ((c : Int) = (C : Int) - 1)⟩ =
        ("SUCK", if d then 1 else -1) := by
      simp [choose_action, hdirty]
    obtain ⟨row, hrow, hclean⟩ := clean_inb ⟨(R : Int), (C : Int), g⟩ hwf r c hrtn hctn
    have hstep : step ⟨(R : Int), (C : Int), g⟩ ((r : Int), (c : Int)) "SUCK" =
        some (⟨(R : Int), (C : Int), g.set r (row.set c false)⟩, ((r : Int), (c : Int))) := by
      unfold step
      rw [if_pos rfl, hclean]
      rfl
    have hall2 : ∀ i j, i < R → j < C → cellD (g.set r (row.set c false)) i j = false := by
      intro i j hi hj
      rw [cellD_set g r c row hrow i j]
      by_cases hij : i = r ∧ j = c
      · rw [if_pos hij]
      · rw [if_neg hij]
        cases hcd : cellD g i j
        · rfl
        · exfalso
          have hmem := (hchar i j hi hj).mp hcd
          rw [hL2, List.mem_singleton] at hmem
          injection hmem with hm1 hm2
          exact hij ⟨hm1, hm2⟩
    have hz : (⟨(R : Int), (C : Int), g.set r (row.set c false)⟩ : Room).dirt_count = 0 := by
      apply dirt_count_zero
      intro i j hi hj
      simp only [Int.toNat_natCast] at hi hj
      exact hall2 i j hi hj
    have hdz : (⟨(R : Int), (C : Int), g⟩ : Room).dirt_count > 0 :=
      dirt_count_pos _ r c hrtn hctn hdirty
    obtain ⟨m, rfl⟩ : ∃ m, fuel = m + 1 := ⟨fuel - 1, by omega⟩
    have hsub : runLoop m ⟨(R : Int), (C : Int), g.set r (row.set c false)⟩
        (if d then 1 else -1) ((r : Int), (c : Int)) =
        some ⟨⟨(R : Int), (C : Int), g.set r (row.set c false)⟩,
          ((r : Int), (c : Int)), 0, [], false⟩ :=
      runLoop_dirt_zero m _ _ _ hz
    have hrun := runLoop_succ_eq m ⟨(R : Int), (C : Int), g⟩ (if d then 1 else -1)
      ((r : Int), (c : Int)) _ "SUCK" (if d then 1 else -1) _ _ hdz hp hca hstep hsub
    refine ⟨_, hrun, by simp, ?_, ?_, ?_⟩
    · intro i j hi hj
      exact hall2 i j hi hj
    · rw [hL2]
      rfl
    · rfl
  | succ k ih =>
    intro fuel g d r c hlen hrows hr hc hL hchar hfuel
    have hwf : (⟨(R : Int), (C : Int), g⟩ : Room).wf := by
      refine ⟨by simpa using hlen, fun row hm => by simpa using hrows row hm⟩
    have hrtn : r < (⟨(R : Int), (C : Int), g⟩ : Room).rows.toNat := by simpa using hr
    have hctn : c < (⟨(R : Int), (C : Int), g⟩ : Room).cols.toNat := by simpa using hc
    have hdirty : cellD g r c = true := by
      refine (hchar r c hr hc).mpr ?_
      obtain ⟨L2, hL2⟩ := sweepFrom_head R C r c d hr hc
      rw [hL2]
      exact List.mem_cons_self _ _
    have hp := get_percept_inb ⟨(R : Int), (C : Int), g⟩ hwf r c hrtn hctn
    have hca1 : choose_action (if d then 1 else -1) ⟨((r : Int), (c : Int)), cellD g r c,
        decide ((r : Int) = 0), decide ((r : Int) = (R : Int) - 1),
        decide ((c : Int) = 0), decide ((c : Int) = (C : Int) - 1)⟩ =
        ("SUCK", if d then 1 else -1) := by
      simp [choose_action, hdirty]
    obtain ⟨row, hrow, hclean⟩ := clean_inb ⟨(R : Int), (C : Int), g⟩ hwf r c hrtn hctn
    have hstep1 : step ⟨(R : Int), (C : Int), g⟩ ((r : Int), (c : Int)) "SUCK" =
        some (⟨(R : Int), (C : Int), g.set r (row.set c false)⟩, ((r : Int), (c : Int))) := by
      unfold step
      rw [if_pos rfl, hclean]
      rfl
    have hdz : (⟨(R : Int), (C : Int), g⟩ : Room).dirt_count > 0 :=
      dirt_count_pos _ r c hrtn hctn hdirty
    have hlen2 : (g.set r (row.set c false)).length = R := by
      rw [List.length_set]; exact hlen
    have hrows2 : ∀ row2 ∈ g.set r (row.set c false), row2.length = C := by
      intro row2 hm
      rcases List.mem_or_eq_of_mem_set hm with hm | hm
      · exact hrows _ hm
      · rw [hm, List.length_set]; exact hrows _ (List.get?_mem hrow)
    have hwf2 : (⟨(R : Int), (C : Int), g.set r (row.set c false)⟩ : Room).wf := by
      refine ⟨by simpa using hlen2, fun row2 hm => by simpa using hrows2 row2 hm⟩
    have mkchar : ∀ LT, sweepFrom R C r c d = (r, c) :: LT →
        ((r, c) ∉ LT) ∧
        (∀ i j, i < R → j < C →
          (cellD (g.set r (row.set c false)) i j = true ↔ (i, j) ∈ LT)) := by
      intro LT hcons
      have hnodup := nodup_sweepFrom R C r c d
      rw [hcons] at hnodup
      have hnotmem := (List.nodup_cons.mp hnodup).1
      refine ⟨hnotmem, ?_⟩
      intro i j hi hj
      rw [cellD_set g r c row hrow i j]
      by_cases hij : i = r ∧ j = c
      · rw [if_pos hij]
        obtain ⟨rfl, rfl⟩ := hij
        exact iff_of_false (by simp) hnotmem
      · rw [if_neg hij, hchar i j hi hj, hcons, List.mem_cons]
        constructor
        · rintro (heq | hm)
          · injection heq with e1 e2
            exact absurd ⟨e1, e2⟩ hij
          · exact hm
        · exact fun hm => Or.inr hm
    obtain ⟨m, rfl⟩ : ∃ m, fuel = m + 2 := ⟨fuel - 2, by omega⟩
    cases d
    · -- sweeping left
      by_cases hcpos : 0 < c
      · -- LEFT to (r, c − 1)
        have hcons := sweepFrom_left_cons R C r c hcpos
        obtain ⟨hnotmem, hchar2⟩ := mkchar _ hcons
        have hLT : (sweepFrom R C r (c - 1) false).length = k + 1 := by
          have hx := hL
          rw [hcons] at hx
          simpa using hx
        have hp2 := get_percept_inb ⟨(R : Int), (C : Int), g.set r (row.set c false)⟩
          hwf2 r c (by simpa using hr) (by simpa using hc)
        have hdirty2 : cellD (g.set r (row.set c false)) r c = false := by
          cases hcd : cellD (g.set r (row.set c false)) r c
          · rfl
          · exact absurd ((hchar2 r c hr hc).mp hcd) hnotmem
        have hca2 : choose_action (-1) ⟨((r : Int), (c : Int)),
            cellD (g.set r (row.set c false)) r c,
            decide ((r : Int) = 0), decide ((r : Int) = (R : Int) - 1),
            decide ((c : Int) = 0), decide ((c : Int) = (C : Int) - 1)⟩ = ("LEFT", -1) := by
          simp [choose_action, hdirty2, show ¬((-1 : Int) = 1) by decide,
            show ¬((c : Int) = 0) by omega]
        have hstep2 : step ⟨(R : Int), (C : Int), g.set r (row.set c false)⟩
            ((r : Int), (c : Int)) "LEFT" =
            some (⟨(R : Int), (C : Int), g.set r (row.set c false)⟩,
              ((r : Int), ((c - 1 : Nat) : Int))) := by
          unfold step
          rw [if_neg (by decide), if_neg (by decide), if_neg (by decide), if_pos rfl]
          dsimp only
          rw [if_pos (show (c : Int) > 0 by omega)]
          have hcast : ((c : Int) - 1) = ((c - 1 : Nat) : Int) := by omega
          rw [hcast]
        have hdz2 : (⟨(R : Int), (C : Int), g.set r (row.set c false)⟩ : Room).dirt_count > 0 := by
          obtain ⟨LT2, hLT2⟩ := sweepFrom_head R C r (c - 1) false hr (by omega)
          have hmem : (r, c - 1) ∈ sweepFrom R C r (c - 1) false := by
            rw [hLT2]; exact List.mem_cons_self _ _
          have hd2 : cellD (g.set r (row.set c false)) r (c - 1) = true :=
            (hchar2 r (c - 1) hr (by omega)).mpr hmem
          exact dirt_count_pos _ r (c - 1) (by simpa using hr) (by simpa using (by omega : c - 1 < C)) hd2
        obtain ⟨sub, hsub, hsteps, hclean3, hdedup, hhead⟩ :=
          ih m (g.set r (row.set c false)) false r (c - 1) hlen2 hrows2 hr (by omega)
            hLT hchar2 (by omega)
        have hrun2 := runLoop_succ_eq m ⟨(R : Int), (C : Int), g.set r (row.set c false)⟩
          (-1) ((r : Int), (c : Int)) _ "LEFT" (-1)
          (⟨(R : Int), (C : Int), g.set r (row.set c false)⟩, ((r : Int), ((c - 1 : Nat) : Int)))
          sub hdz2 hp2 hca2 hstep2 hsub
        have hrun1 := runLoop_succ_eq (m + 1) ⟨(R : Int), (C : Int), g⟩
          (if false then 1 else -1) ((r : Int), (c : Int)) _ "SUCK" (if false then 1 else -1)
          (⟨(R : Int), (C : Int), g.set r (row.set c false)⟩, ((r : Int), (c : Int)))
          _ hdz hp hca1 hstep1 hrun2
        refine ⟨_, hrun1, by dsimp only; omega, ?_, ?_, ?_⟩
        · intro i j hi hj
          exact hclean3 i j hi hj
        · dsimp only
          cases hst : sub.trace with
          | nil => rw [hst] at hhead; exact absurd hhead (by simp)
          | cons q t2 =>
            have hq : q = toPos (r, c - 1) := by
              rw [hst] at hhead
              simpa using hhead
            subst hq
            rw [hst] at hdedup
            rw [dedupConsec_cons_cons _ _ _ (by
              simp only [toPos, ne_eq, Prod.mk.injEq, not_and]
              intro _
              omega)]
            rw [hdedup, hcons]
            rfl
        · rfl
      · -- at the left wall
        have hc0 : c = 0 := by omega
        subst hc0
        by_cases hrpos : r + 1 < R
        · -- DOWN to (r + 1, 0), direction flips to rightward
          have hcons := sweepFrom_left_down R C r hrpos
          obtain ⟨hnotmem, hchar2⟩ := mkchar _ hcons
          have hLT : (sweepFrom R C (r + 1) 0 true).length = k + 1 := by
            have hx := hL
            rw [hcons] at hx
            simpa using hx
          have hp2 := get_percept_inb ⟨(R : Int), (C : Int), g.set r (row.set 0 false)⟩
            hwf2 r 0 (by simpa using hr) (by simpa using hc)
          have hdirty2 : cellD (g.set r (row.set 0 false)) r 0 = false := by
            cases hcd : cellD (g.set r (row.set 0 false)) r 0
            · rfl
            · exact absurd ((hchar2 r 0 hr hc).mp hcd) hnotmem
          have hca2 : choose_action (-1) ⟨((r : Int), ((0 : Nat) : Int)),
              cellD (g.set r (row.set 0 false)) r 0,
              decide ((r : Int) = 0), decide ((r : Int) = (R : Int) - 1),
              decide (((0 : Nat) : Int) = 0), decide (((0 : Nat) : Int) = (C : Int) - 1)⟩ =
              ("DOWN", 1) := by
            simp [choose_action, hdirty2, show ¬((-1 : Int) = 1) by decide,
              show ¬((r : Int) = (R : Int) - 1) by omega]
          have hstep2 : step ⟨(R : Int), (C : Int), g.set r (row.set 0 false)⟩
              ((r : Int), ((0 : Nat) : Int)) "DOWN" =
              some (⟨(R : Int), (C : Int), g.set r (row.set 0 false)⟩,
                (((r + 1 : Nat) : Int), ((0 : Nat) : Int))) := by
            unfold step
            rw [if_neg (by decide), if_neg (by decide), if_pos rfl]
            dsimp only
            rw [if_pos (show (r : Int) < (R : Int) - 1 by omega)]
            norm_cast
          have hdz2 : (⟨(R : Int), (C : Int), g.set r (row.set 0 false)⟩ : Room).dirt_count > 0 := by
            obtain ⟨LT2, hLT2⟩ := sweepFrom_head R C (r + 1) 0 true hrpos (by omega)
            have hmem : (r + 1, 0) ∈ sweepFrom R C (r + 1) 0 true := by
              rw [hLT2]; exact List.mem_cons_self _ _
            have hd2 : cellD (g.set r (row.set 0 false)) (r + 1) 0 = true :=
              (hchar2 (r + 1) 0 hrpos hc).mpr hmem
            exact dirt_count_pos _ (r + 1) 0 (by simpa using hrpos) (by simpa using hc) hd2
          obtain ⟨sub, hsub, hsteps, hclean3, hdedup, hhead⟩ :=
            ih m (g.set r (row.set 0 false)) true (r + 1) 0 hlen2 hrows2 hrpos hc
              hLT hchar2 (by omega)
          have hrun2 := runLoop_succ_eq m ⟨(R : Int), (C : Int), g.set r (row.set 0 false)⟩
            (-1) ((r : Int), ((0 : Nat) : Int)) _ "DOWN" 1
            (⟨(R : Int), (C : Int), g.set r (row.set 0 false)⟩,
              (((r + 1 : Nat) : Int), ((0 : Nat) : Int)))
            sub hdz2 hp2 hca2 hstep2 hsub
          have hrun1 := runLoop_succ_eq (m + 1) ⟨(R : Int), (C : Int), g⟩
            (if false then 1 else -1) ((r : Int), ((0 : Nat) : Int)) _ "SUCK"
            (if false then 1 else -1)
            (⟨(R : Int), (C : Int), g.set r (row.set 0 false)⟩, ((r : Int), ((0 : Nat) : Int)))
            _ hdz hp hca1 hstep1 hrun2
          refine ⟨_, hrun1, by dsimp only; omega, ?_, ?_, ?_⟩
          · intro i j hi hj
            exact hclean3 i j hi hj
          · dsimp only
            cases hst : sub.trace with
            | nil => rw [hst] at hhead; exact absurd hhead (by simp)
            | cons q t2 =>
              have hq : q = toPos (r + 1, 0) := by
                rw [hst] at hhead
                simpa using hhead
              subst hq
              rw [hst] at hdedup
              rw [dedupConsec_cons_cons _ _ _ (by
                simp only [toPos, ne_eq, Prod.mk.injEq, not_and]
                intro h1
                omega)]
              rw [hdedup, hcons]
              rfl
          · rfl
        · -- bottom-left corner: the tail would be empty, contradicting the length
          exfalso
          have hcons := sweepFrom_left_last R C r (by omega)
          rw [hcons] at hL
          simp only [List.length_singleton] at hL
          omega
    · -- sweeping right
      by_cases hcpos : c + 1 < C
      · -- RIGHT to (r, c + 1)
        have hcons := sweepFrom_right_cons R C r c hcpos
        obtain ⟨hnotmem, hchar2⟩ := mkchar _ hcons
        have hLT : (sweepFrom R C r (c + 1) true).length = k + 1 := by
          have hx := hL
          rw [hcons] at hx
          simpa using hx
        have hp2 := get_percept_inb ⟨(R : Int), (C : Int), g.set r (row.set c false)⟩
          hwf2 r c (by simpa using hr) (by simpa using hc)
        have hdirty2 : cellD (g.set r (row.set c false)) r c = false := by
          cases hcd : cellD (g.set r (row.set c false)) r c
          · rfl
          · exact absurd ((hchar2 r c hr hc).mp hcd) hnotmem
        have hca2 : choose_action 1 ⟨((r : Int), (c : Int)),
            cellD (g.set r (row.set c false)) r c,
            decide ((r : Int) = 0), decide ((r : Int) = (R : Int) - 1),
            decide ((c : Int) = 0), decide ((c : Int) = (C : Int) - 1)⟩ = ("RIGHT", 1) := by
          simp [choose_action, hdirty2, show ¬((c : Int) = (C : Int) - 1) by omega]
        have hstep2 : step ⟨(R : Int), (C : Int), g.set r (row.set c false)⟩
            ((r : Int), (c : Int)) "RIGHT" =
            some (⟨(R : Int), (C : Int), g.set r (row.set c false)⟩,
              ((r : Int), ((c + 1 : Nat) : Int))) := by
          unfold step
          rw [if_neg (by decide), if_neg (by decide), if_neg (by decide),
            if_neg (by decide), if_pos rfl]
          dsimp only
          rw [if_pos (show (c : Int) < (C : Int) - 1 by omega)]
          norm_cast
        have hdz2 : (⟨(R : Int), (C : Int), g.set r (row.set c false)⟩ : Room).dirt_count > 0 := by
          obtain ⟨LT2, hLT2⟩ := sweepFrom_head R C r (c + 1) true hr hcpos
          have hmem : (r, c + 1) ∈ sweepFrom R C r (c + 1) true := by
            rw [hLT2]; exact List.mem_cons_self _ _
          have hd2 : cellD (g.set r (row.set c false)) r (c + 1) = true :=
            (hchar2 r (c + 1) hr hcpos).mpr hmem
          exact dirt_count_pos _ r (c + 1) (by simpa using hr) (by simpa using hcpos) hd2
        obtain ⟨sub, hsub, hsteps, hclean3, hdedup, hhead⟩ :=
          ih m (g.set r (row.set c false)) true r (c + 1) hlen2 hrows2 hr hcpos
            hLT hchar2 (by omega)
        have hrun2 := runLoop_succ_eq m ⟨(R : Int), (C : Int), g.set r (row.set c false)⟩
          1 ((r : Int), (c : Int)) _ "RIGHT" 1
          (⟨(R : Int), (C : Int), g.set r (row.set c false)⟩, ((r : Int), ((c + 1 : Nat) : Int)))
          sub hdz2 hp2 hca2 hstep2 hsub
        have hrun1 := runLoop_succ_eq (m + 1) ⟨(R : Int), (C : Int), g⟩
          (if true then 1 else -1) ((r : Int), (c : Int)) _ "SUCK" (if true then 1 else -1)
          (⟨(R : Int), (C : Int), g.set r (row.set c false)⟩, ((r : Int), (c : Int)))
          _ hdz hp hca1 hstep1 hrun2
        refine ⟨_, hrun1, by dsimp only; omega, ?_, ?_, ?_⟩
        · intro i j hi hj
          exact hclean3 i j hi hj
        · dsimp only
          cases hst : sub.trace with
          | nil => rw [hst] at hhead; exact absurd hhead (by simp)
          | cons q t2 =>
            have hq : q = toPos (r, c + 1) := by
              rw [hst] at hhead
              simpa using hhead
            subst hq
            rw [hst] at hdedup
            rw [dedupConsec_cons_cons _ _ _ (by
              simp only [toPos, ne_eq, Prod.mk.injEq, not_and]
              intro _
              omega)]
            rw [hdedup, hcons]
            rfl
        · rfl
      · -- at the right wall
        by_cases hrpos : r + 1 < R
        · -- DOWN to (r + 1, C − 1), direction flips to leftward
          have hceq : c = C - 1 := by omega
          subst hceq
          have hcons := sweepFrom_right_down R C r (C - 1) (by omega) hrpos
          obtain ⟨hnotmem, hchar2⟩ := mkchar _ hcons
          have hLT : (sweepFrom R C (r + 1) (C - 1) false).length = k + 1 := by
            have hx := hL
            rw [hcons] at hx
            simpa using hx
          have hp2 := get_percept_inb ⟨(R : Int), (C : Int), g.set r (row.set (C - 1) false)⟩
            hwf2 r (C - 1) (by simpa using hr) (by simpa using hc)
          have hdirty2 : cellD (g.set r (row.set (C - 1) false)) r (C - 1) = false := by
            cases hcd : cellD (g.set r (row.set (C - 1) false)) r (C - 1)
            · rfl
            · exact absurd ((hchar2 r (C - 1) hr hc).mp hcd) hnotmem
          have hca2 : choose_action 1 ⟨((r : Int), ((C - 1 : Nat) : Int)),
              cellD (g.set r (row.set (C - 1) false)) r (C - 1),
              decide ((r : Int) = 0), decide ((r : Int) = (R : Int) - 1),
              decide (((C - 1 : Nat) : Int) = 0), decide (((C - 1 : Nat) : Int) = (C : Int) - 1)⟩ =
              ("DOWN", -1) := by
            simp [choose_action, hdirty2, show (((C - 1 : Nat) : Int) = (C : Int) - 1) by omega,
              show ¬((r : Int) = (R : Int) - 1) by omega]
          have hstep2 : step ⟨(R : Int), (C : Int), g.set r (row.set (C - 1) false)⟩
              ((r : Int), ((C - 1 : Nat) : Int)) "DOWN" =
              some (⟨(R : Int), (C : Int), g.set r (row.set (C - 1) false)⟩,
                (((r + 1 : Nat) : Int), ((C - 1 : Nat) : Int))) := by
            unfold step
            rw [if_neg (by decide), if_neg (by decide), if_pos rfl]
            dsimp only
            rw [if_pos (show (r : Int) < (R : Int) - 1 by omega)]
            norm_cast
          have hdz2 : (⟨(R : Int), (C : Int), g.set r (row.set (C - 1) false)⟩ :
              Room).dirt_count > 0 := by
            obtain ⟨LT2, hLT2⟩ := sweepFrom_head R C (r + 1) (C - 1) false hrpos (by omega)
            have hmem : (r + 1, C - 1) ∈ sweepFrom R C (r + 1) (C - 1) false := by
              rw [hLT2]; exact List.mem_cons_self _ _
            have hd2 : cellD (g.set r (row.set (C - 1) false)) (r + 1) (C - 1) = true :=
              (hchar2 (r + 1) (C - 1) hrpos hc).mpr hmem
            exact dirt_count_pos _ (r + 1) (C - 1) (by simpa using hrpos)
              (by simpa using hc) hd2
          obtain ⟨sub, hsub, hsteps, hclean3, hdedup, hhead⟩ :=
            ih m (g.set r (row.set (C - 1) false)) false (r + 1) (C - 1) hlen2 hrows2
              hrpos (by omega) hLT hchar2 (by omega)
          have hrun2 := runLoop_succ_eq m
            ⟨(R : Int), (C : Int), g.set r (row.set (C - 1) false)⟩
            1 ((r : Int), ((C - 1 : Nat) : Int)) _ "DOWN" (-1)
            (⟨(R : Int), (C : Int), g.set r (row.set (C - 1) false)⟩,
              (((r + 1 : Nat) : Int), ((C - 1 : Nat) : Int)))
            sub hdz2 hp2 hca2 hstep2 hsub
          have hrun1 := runLoop_succ_eq (m + 1) ⟨(R : Int), (C : Int), g⟩
            (if true then 1 else -1) ((r : Int), ((C - 1 : Nat) : Int)) _ "SUCK"
            (if true then 1 else -1)
            (⟨(R : Int), (C : Int), g.set r (row.set (C - 1) false)⟩,
              ((r : Int), ((C - 1 : Nat) : Int)))
            _ hdz hp hca1 hstep1 hrun2
          refine ⟨_, hrun1, by dsimp only; omega, ?_, ?_, ?_⟩
          · intro i j hi hj
            exact hclean3 i j hi hj
          · dsimp only
            cases hst : sub.trace with
            | nil => rw [hst] at hhead; exact absurd hhead (by simp)
            | cons q t2 =>
              have hq : q = toPos (r + 1, C - 1) := by
                rw [hst] at hhead
                simpa using hhead
              subst hq
              rw [hst] at hdedup
              rw [dedupConsec_cons_cons _ _ _ (by
                simp only [toPos, ne_eq, Prod.mk.injEq, not_and]
                intro h1
                omega)]
              rw [hdedup, hcons]
              rfl
          · rfl
        · -- bottom-right corner: tail empty, contradicting the length
          exfalso
          have hcons := sweepFrom_right_last R C r c (by omega) (by omega)
          rw [hcons] at hL
          simp only [List.length_singleton] at hL
          omega

lemma flatMap_congr_fun {α β : Type} (l : List α) (f g : α → List β)
    (h : ∀ a, f a = g a) : l.flatMap f = l.flatMap g := by
  induction l with
  | nil => rfl
  | cons x xs ihx => rw [List.flatMap_cons, List.flatMap_cons, h x, ihx]

lemma sweepRows_map_toPos (C : Nat) (hC : 0 < C) : ∀ (n r : Nat) (d : Bool),
    (sweepRows C n r d).map toPos = (List.range n).flatMap (fun i =>
      if (if i % 2 = 0 then d else !d) = true then
        (List.range C).map (fun j : Nat => (((r + i : Nat) : Int), (j : Int)))
      else ((List.range C).map (fun j : Nat => (((r + i : Nat) : Int), (j : Int)))).reverse) := by
  intro n
  induction n with
  | zero => intro r d; rfl
  | succ m ih =>
    intro r d
    rw [show sweepRows C (m + 1) r d =
      sweepSeg C r (if d then 0 else C - 1) d ++ sweepRows C m (r + 1) (!d) from rfl,
      List.map_append, ih (r + 1) (!d),
      List.range_succ_eq_map, List.flatMap_cons, List.flatMap_map]
    have hseg : (sweepSeg C r (if d then 0 else C - 1) d).map toPos =
        (if (if 0 % 2 = 0 then d else !d) = true then
          (List.range C).map (fun j : Nat => (((r + 0 : Nat) : Int), (j : Int)))
        else ((List.range C).map (fun j : Nat => (((r + 0 : Nat) : Int), (j : Int)))).reverse) := by
      have h0 : (if 0 % 2 = 0 then d else !d) = d := by norm_num
      rw [h0]
      simp only [Nat.add_zero]
      cases d
      · rw [if_neg (by simp)]
        unfold sweepSeg
        rw [if_neg (by simp), List.map_reverse, List.map_map,
          show C - 1 + 1 = C by omega]
        rfl
      · rw [if_pos rfl]
        unfold sweepSeg
        rw [if_pos rfl, List.map_map, Nat.sub_zero, ← List.range_eq_range']
        rfl
    rw [hseg]
    congr 1
    refine flatMap_congr_fun _ _ _ (fun i => ?_)
    have hx : (r + 1) + i = r + Nat.succ i := by omega
    by_cases hp : i % 2 = 0
    · have hp2 : ¬ (Nat.succ i % 2 = 0) := by omega
      rw [if_pos hp, if_neg hp2, hx]
    · have hp2 : Nat.succ i % 2 = 0 := by omega
      rw [if_neg hp, if_pos hp2, hx, Bool.not_not]

lemma sweepFrom_map_eq_boustro (R C : Nat) (hR : 0 < R) (hC : 0 < C) :
    (sweepFrom R C 0 0 true).map toPos = boustroSpec R C := by
  rw [sweepFrom_full_eq R C hR, sweepRows_map_toPos C hC R 0 true]
  unfold boustroSpec
  congr 1
  funext i
  by_cases hp : i % 2 = 0
  · simp [hp]
  · simp [hp]

lemma cellD_mkRoom (rows cols : Int) (prob : ℚ) (rnd : Nat → ℚ) (i j : Nat)
    (hi : i < rows.toNat) (hj : j < cols.toNat) :
    cellD (mkRoom rows cols prob rnd).grid i j =
      decide (rnd (i * cols.toNat + j) < prob) := by
  unfold mkRoom cellD
  rw [List.get?_map, List.get?_range hi]
  simp only [Option.map_some', Option.getD_some]
  rw [List.get?_map, List.get?_range hj]
  rfl

lemma full_dirt_run (rows cols : Int) (rnd : Nat → ℚ) (ms : Int)
    (hR : 1 ≤ rows) (hC : 1 ≤ cols)
    (hrnd : ∀ n, 0 ≤ rnd n ∧ rnd n < 1)
    (hms : 2 * rows * cols ≤ ms) :
    ∃ out, runLoop ms.toNat (mkRoom rows cols 1 rnd) 1 (0, 0) = some out ∧
      out.steps = 2 * (rows.toNat * cols.toNat - 1) + 1 ∧
      out.room.dirt_count = 0 ∧
      dedupConsec out.trace = boustroSpec rows.toNat cols.toNat := by
  have hR2 : 0 < rows.toNat := by omega
  have hC2 : 0 < cols.toNat := by omega
  have hwf := mkRoom_wf rows cols 1 rnd
  have hchar : ∀ i j, i < rows.toNat → j < cols.toNat →
      (cellD (mkRoom rows cols 1 rnd).grid i j = true ↔
        (i, j) ∈ sweepFrom rows.toNat cols.toNat 0 0 true) := by
    intro i j hi hj
    refine iff_of_true ?_ ((mem_sweepFrom_full _ _ hR2 hC2 i j).mpr ⟨hi, hj⟩)
    rw [cellD_mkRoom rows cols 1 rnd i j hi hj]
    have hlt := (hrnd (i * cols.toNat + j)).2
    simpa using hlt
  have hpos : 0 < rows.toNat * cols.toNat := Nat.mul_pos hR2 hC2
  have hL : (sweepFrom rows.toNat cols.toNat 0 0 true).length
      = (rows.toNat * cols.toNat - 1) + 1 := by
    rw [length_sweepFrom_full _ _ hR2 hC2]
    omega
  have h1 : rows = ((rows.toNat : Nat) : Int) := by omega
  have h2 : cols = ((cols.toNat : Nat) : Int) := by omega
  have hkey : ((2 * (rows.toNat * cols.toNat) : Nat) : Int) ≤ ms := by
    calc ((2 * (rows.toNat * cols.toNat) : Nat) : Int)
        = 2 * ((rows.toNat : Nat) : Int) * ((cols.toNat : Nat) : Int) := by push_cast; ring
      _ = 2 * rows * cols := by rw [← h1, ← h2]
      _ ≤ ms := hms
  have hfuel : 2 * (rows.toNat * cols.toNat - 1) + 1 ≤ ms.toNat := by omega
  obtain ⟨out, hrun, hsteps, hallclean, hdedup, _⟩ :=
    sweepRun rows.toNat cols.toNat (rows.toNat * cols.toNat - 1) ms.toNat
      (mkRoom rows cols 1 rnd).grid true 0 0 hwf.1 hwf.2 hR2 hC2 hL hchar hfuel
  have hroom : mkRoom rows cols 1 rnd =
      ⟨((rows.toNat : Nat) : Int), ((cols.toNat : Nat) : Int),
        (mkRoom rows cols 1 rnd).grid⟩ := by
    show (⟨rows, cols, _⟩ : Room) = _
    rw [← h1, ← h2]
    rfl
  rw [← hroom] at hrun
  simp only [Nat.cast_zero] at hrun
  have hrun2 : runLoop ms.toNat (mkRoom rows cols 1 rnd) 1 (0, 0) = some out := hrun
  obtain ⟨e1, e2, _, _, _⟩ := runLoop_facts ms.toNat _ 1 (0, 0) out hrun2
  have hz : out.room.dirt_count = 0 := by
    apply dirt_count_zero
    intro i j hi hj
    apply hallclean
    · rw [e1] at hi
      exact hi
    · rw [e2] at hj
      exact hj
  refine ⟨out, hrun2, hsteps, hz, ?_⟩
  rw [hdedup, sweepFrom_map_eq_boustro _ _ hR2 hC2]

/-- C4: started at the origin on a fully dirty grid with an ample step
budget, the positions the agent visits (merging consecutive repeats, since
SUCK does not move) are exactly the strict row-major boustrophedon order:
row 0 left-to-right, row 1 right-to-left, and so on, each cell exactly
once.  Full dirt is obtained from `dirt_prob = 1` with draws in `[0, 1)`. -/
theorem traversal_row_major (rows cols : Int) (rnd : Nat → ℚ) (ms : Int)
    (hR : 1 ≤ rows) (hC : 1 ≤ cols)
    (hrnd : ∀ n, 0 ≤ rnd n ∧ rnd n < 1)
    (hms : 2 * rows * cols ≤ ms) :
    ∃ tr, episodeTrace rows cols 1 rnd ms (0, 0) = some tr ∧
      dedupConsec tr = boustroSpec rows.toNat cols.toNat := by
  obtain ⟨out, hrun, _, _, hdedup⟩ := full_dirt_run rows cols rnd ms hR hC hrnd hms
  refine ⟨out.trace, ?_, hdedup⟩
  unfold episodeTrace
  rw [hrun]
  rfl

/-- Witness for C4 on a 2×2 grid: the dedupd trace is the boustrophedon
order (0,0), (0,1), (1,1), (1,0). -/
theorem traversal_row_major_witness :
    ∃ tr, episodeTrace 2 2 1 (fun _ => (0 : ℚ)) 8 (0, 0) = some tr ∧
      dedupConsec tr = boustroSpec (2 : Int).toNat (2 : Int).toNat :=
  traversal_row_major 2 2 (fun _ => (0 : ℚ)) 8 (by decide) (by decide)
    (fun n => ⟨by norm_num, by norm_num⟩) (by decide)

/-- C5: on a grid built with `dirt_prob = 1` (draws lie in `[0, 1)`, so
every cell starts dirty) and a step budget of at least `2·rows·cols`, the
episode started at the origin cleans everything: `cleaned_all` is true,
no dirt remains, and at most `rows·cols·2` steps are taken (exactly
`2·rows·cols − 1`). -/
theorem full_dirt_episode_success (rows cols : Int) (rnd : Nat → ℚ) (ms : Int)
    (hR : 1 ≤ rows) (hC : 1 ≤ cols)
    (hrnd : ∀ n, 0 ≤ rnd n ∧ rnd n < 1)
    (hms : 2 * rows * cols ≤ ms) :
    ∃ res, run_episode rows cols 1 rnd ms (0, 0) = some res ∧
      res.cleaned_all = true ∧ res.dirt_remaining = 0 ∧
      (res.steps_taken : Int) ≤ rows * cols * 2 := by
  obtain ⟨out, hrun, hsteps, hz, _⟩ := full_dirt_run rows cols rnd ms hR hC hrnd hms
  refine ⟨⟨rows, cols, (mkRoom rows cols 1 rnd).dirt_count, out.steps,
    out.room.dirt_count, decide (out.room.dirt_count = 0)⟩, ?_, ?_, ?_, ?_⟩
  · simp only [run_episode]
    rw [hrun]
    rfl
  · simp [hz]
  · simpa using hz
  · show ((out.steps : Nat) : Int) ≤ rows * cols * 2
    rw [hsteps]
    have h1 : rows = ((rows.toNat : Nat) : Int) := by omega
    have h2 : cols = ((cols.toNat : Nat) : Int) := by omega
    have hprod : rows * cols = ((rows.toNat * cols.toNat : Nat) : Int) := by
      push_cast
      rw [← h1, ← h2]
    rw [hprod]
    have hpos : 0 < rows.toNat * cols.toNat := Nat.mul_pos (by omega) (by omega)
    omega

/-- Witness for C5 on a 2×2 grid with budget 8: the record shows 7 steps,
no dirt left. -/
theorem full_dirt_episode_success_witness :
    ∃ res, run_episode 2 2 1 (fun _ => (0 : ℚ)) 8 (0, 0) = some res ∧
      res.cleaned_all = true ∧ res.dirt_remaining = 0 ∧
      (res.steps_taken : Int) ≤ 2 * 2 * 2 :=
  full_dirt_episode_success 2 2 (fun _ => (0 : ℚ)) 8 (by decide) (by decide)
    (fun n => ⟨by norm_num, by norm_num⟩) (by decide)

end VacuumAgent
